import Mathlib

/-!
# Verification of `text_codec.py` (scthornton/text_encode_decode)

A shallow embedding of the encoder/decoder utility in `src/text_codec.py`.
A Python `str` is modelled as the list of its character code points
(`PyStr := List Nat`); `bytes` values are lists of naturals `< 256`.
The nine codecs delegate to CPython standard-library routines
(`base64`, `binascii`, `urllib.parse`, `html`, `codecs`, `int`,
`bytes.fromhex`, `str.encode`/`bytes.decode`); those routines are embedded
here following the CPython implementations, with a doc comment on each
definition recording exactly which library behaviour it models.
Python exceptions are modelled by `Except PyErr`.
-/

set_option maxHeartbeats 1000000
set_option maxRecDepth 4000

namespace TextCodec

/-- A Python `str`: the list of its character code points. -/
abbrev PyStr := List Nat

/-- Errors raised by the program, by Python exception class.
`unsupportedEncoding` is the `ValueError("Unsupported encoding: ...")`
raised by the dispatcher; `valueError` covers `ValueError` from `int()` /
`bytearray()` / `bytes.fromhex`; `binasciiError` covers `binascii.Error`
raised inside the `base64` module; `unicodeDecodeError` /
`unicodeEncodeError` come from `bytes.decode('utf-8')` /
`str.encode('utf-8')`. -/
inductive PyErr where
  | unsupportedEncoding
  | valueError
  | binasciiError
  | unicodeDecodeError
  | unicodeEncodeError
deriving DecidableEq, Repr

/-- Every entry of the list is a byte value. -/
def IsBytes (bs : List Nat) : Prop := ∀ b ∈ bs, b < 256

instance : DecidablePred IsBytes := fun bs =>
  inferInstanceAs (Decidable (∀ b ∈ bs, b < 256))

/-! ## Whitespace splitting (`str.strip()` / `str.split()`)

`binary_decode` and `octal_decode` both do `encoded.strip().split()`. -/

/-- Characters recognised as whitespace by Python `str.split()` /
`str.strip()` (the code points for which `str.isspace()` holds). -/
def isPySpace (c : Nat) : Bool :=
  (9 ≤ c && c ≤ 13) || (28 ≤ c && c ≤ 31) || c == 32 || c == 133 || c == 160 ||
  c == 0x1680 || (0x2000 ≤ c && c ≤ 0x200A) || c == 0x2028 || c == 0x2029 ||
  c == 0x202F || c == 0x205F || c == 0x3000

theorem length_dropWhile_le (p : Nat → Bool) (l : List Nat) :
    (l.dropWhile p).length ≤ l.length := by
  induction l with
  | nil => simp [List.dropWhile]
  | cons c rest ih =>
    by_cases h : p c
    · simpa [List.dropWhile, h] using Nat.le_succ_of_le ih
    · simp [List.dropWhile, h]

/-- Python `str.split()` with no separator argument: splits on runs of
whitespace, discarding leading and trailing whitespace. -/
def pySplitWs : PyStr → List PyStr
  | [] => []
  | c :: rest =>
    if isPySpace c then pySplitWs rest
    else (c :: rest.takeWhile (fun d => !isPySpace d)) ::
         pySplitWs (rest.dropWhile (fun d => !isPySpace d))
termination_by s => s.length
decreasing_by
  · simp only [List.length_cons]; omega
  · have := length_dropWhile_le (fun d => !isPySpace d) rest
    simp only [List.length_cons]; omega

theorem pySplitWs_nil : pySplitWs [] = [] := by rw [pySplitWs]

/-- Python `str.strip()` with no argument: removes leading and trailing
whitespace. -/
def pyStrip (s : PyStr) : PyStr :=
  ((s.dropWhile isPySpace).reverse.dropWhile isPySpace).reverse

/-- Python `' '.join(...)` over a list of strings. -/
def spaceJoin : List PyStr → PyStr
  | [] => []
  | [t] => t
  | t :: ts => t ++ 32 :: spaceJoin ts

/-- A well-formed token: nonempty and free of whitespace characters. -/
def WsToken (t : PyStr) : Prop := t ≠ [] ∧ ∀ c ∈ t, isPySpace c = false

theorem takeWhile_eq_self_of {p : Nat → Bool} {l : List Nat}
    (h : ∀ a ∈ l, p a = true) : l.takeWhile p = l := by
  induction l with
  | nil => rfl
  | cons c rest ih =>
    simp [List.takeWhile, h c (by simp), ih fun a ha => h a (by simp [ha])]

theorem dropWhile_eq_nil_of {p : Nat → Bool} {l : List Nat}
    (h : ∀ a ∈ l, p a = true) : l.dropWhile p = [] := by
  induction l with
  | nil => rfl
  | cons c rest ih =>
    simp [List.dropWhile, h c (by simp), ih fun a ha => h a (by simp [ha])]

/-- Splitting a string that starts with a well-formed token: the token is
produced, and splitting continues on the remainder. -/
theorem pySplitWs_token_step (t s : PyStr) (ht : WsToken t) :
    pySplitWs (t ++ s) =
      (t ++ s.takeWhile (fun d => !isPySpace d)) ::
      pySplitWs (s.dropWhile (fun d => !isPySpace d)) := by
  obtain ⟨hne, hws⟩ := ht
  obtain ⟨c, rest, rfl⟩ : ∃ c rest, t = c :: rest := by
    cases t with
    | nil => exact absurd rfl hne
    | cons c rest => exact ⟨c, rest, rfl⟩
  have hc : isPySpace c = false := hws c (by simp)
  have hrest : ∀ a ∈ rest, (fun d => !isPySpace d) a = true := by
    intro a ha; simp [hws a (by simp [ha])]
  have htake : rest.takeWhile (fun d => !isPySpace d) = rest :=
    takeWhile_eq_self_of hrest
  have hdrop : rest.dropWhile (fun d => !isPySpace d) = [] :=
    dropWhile_eq_nil_of hrest
  show pySplitWs (c :: (rest ++ s)) = _
  rw [pySplitWs]
  simp only [hc, if_false, Bool.false_eq_true]
  rw [List.takeWhile_append, List.dropWhile_append]
  simp [htake, hdrop]

theorem pySplitWs_space_cons (c : Nat) (s : PyStr) (hc : isPySpace c = true) :
    pySplitWs (c :: s) = pySplitWs s := by
  rw [pySplitWs]; simp [hc]

theorem pySplitWs_all_space {s : PyStr} (h : ∀ c ∈ s, isPySpace c = true) :
    pySplitWs s = [] := by
  induction s with
  | nil => exact pySplitWs_nil
  | cons c rest ih =>
    rw [pySplitWs_space_cons c rest (h c (by simp))]
    exact ih fun a ha => h a (by simp [ha])

/-- Splitting the single-space join of well-formed tokens recovers the
tokens. -/
theorem pySplitWs_spaceJoin {toks : List PyStr}
    (h : ∀ t ∈ toks, WsToken t) : pySplitWs (spaceJoin toks) = toks := by
  induction toks with
  | nil => exact pySplitWs_nil
  | cons t ts ih =>
    cases ts with
    | nil =>
      have := pySplitWs_token_step t [] (h t (by simp))
      simpa [spaceJoin, pySplitWs_nil] using this
    | cons t' ts' =>
      have hstep := pySplitWs_token_step t (32 :: spaceJoin (t' :: ts'))
        (h t (by simp))
      have h32 : isPySpace 32 = true := by decide
      rw [show spaceJoin (t :: t' :: ts') = t ++ 32 :: spaceJoin (t' :: ts')
        from rfl, hstep]
      simp only [List.takeWhile, List.dropWhile, h32]
      simp only [Bool.not_true, Bool.false_eq_true, if_false]
      rw [pySplitWs_space_cons 32 _ h32]
      simp [ih fun a ha => h a (by simp [ha])]

/-- Every token produced by `str.split()` is nonempty and whitespace-free. -/
theorem pySplitWs_wellformed (s : PyStr) : ∀ tok ∈ pySplitWs s, WsToken tok := by
  induction s using pySplitWs.induct with
  | case1 => intro tok h; simp [pySplitWs] at h
  | case2 c rest hc ih =>
    intro tok h
    rw [pySplitWs_space_cons c rest hc] at h
    exact ih tok h
  | case3 c rest hc ih =>
    intro tok h
    rw [pySplitWs, if_neg hc] at h
    simp only [List.mem_cons] at h
    rcases h with rfl | h
    · refine ⟨by simp, ?_⟩
      intro a ha
      rcases List.mem_cons.mp ha with rfl | ha
      · simpa using hc
      · have := List.mem_takeWhile_imp ha
        simpa using this
    · exact ih tok h

theorem pySplitWs_dropWhile (s : PyStr) :
    pySplitWs (s.dropWhile isPySpace) = pySplitWs s := by
  induction s with
  | nil => rfl
  | cons c rest ih =>
    by_cases hc : isPySpace c = true
    · rw [List.dropWhile_cons_of_pos hc, pySplitWs_space_cons c rest hc]
      exact ih
    · rw [List.dropWhile_cons_of_neg hc]

theorem takeWhile_append_of_exists {p : Nat → Bool} {l : List Nat}
    (h : ∃ x ∈ l, p x = false) (b : List Nat) :
    (l ++ b).takeWhile p = l.takeWhile p ∧
    (l ++ b).dropWhile p = l.dropWhile p ++ b := by
  induction l with
  | nil =>
    obtain ⟨x, hx, _⟩ := h
    simp at hx
  | cons a l' ih =>
    by_cases ha : p a = true
    · have h' : ∃ x ∈ l', p x = false := by
        obtain ⟨x, hx, hpx⟩ := h
        rcases List.mem_cons.mp hx with rfl | hx
        · rw [ha] at hpx; cases hpx
        · exact ⟨x, hx, hpx⟩
      have := ih h'
      simp [List.takeWhile, List.dropWhile, ha, this.1, this.2]
    · have ha' : p a = false := by simpa using ha
      simp [List.takeWhile, List.dropWhile, ha']

/-- Appending trailing whitespace does not change `str.split()`. -/
theorem pySplitWs_append_space (ws : PyStr)
    (hws : ∀ c ∈ ws, isPySpace c = true) (s : PyStr) :
    pySplitWs (s ++ ws) = pySplitWs s := by
  suffices H : ∀ n s, s.length ≤ n → pySplitWs (s ++ ws) = pySplitWs s from
    H s.length s le_rfl
  intro n
  induction n with
  | zero =>
    intro s hs
    have : s = [] := List.eq_nil_of_length_eq_zero (Nat.le_zero.mp hs)
    subst this
    simpa [pySplitWs_nil] using pySplitWs_all_space hws
  | succ n ih =>
    intro s hs
    cases s with
    | nil => simpa [pySplitWs_nil] using pySplitWs_all_space hws
    | cons c rest =>
      by_cases hc : isPySpace c = true
      · rw [List.cons_append, pySplitWs_space_cons c _ hc,
          pySplitWs_space_cons c rest hc]
        exact ih rest (by simpa using hs)
      · have hc' : isPySpace c = false := by simpa using hc
        rw [List.cons_append, pySplitWs, pySplitWs]
        simp only [hc', Bool.false_eq_true, if_false]
        by_cases hall : ∀ a ∈ rest, isPySpace a = false
        · have hq : ∀ a ∈ rest, (fun d => !isPySpace d) a = true := by
            intro a ha; simp [hall a ha]
          have htake : rest.takeWhile (fun d => !isPySpace d) = rest :=
            takeWhile_eq_self_of hq
          have hdrop : rest.dropWhile (fun d => !isPySpace d) = [] :=
            dropWhile_eq_nil_of hq
          rw [List.takeWhile_append, List.dropWhile_append]
          simp only [htake, hdrop, List.isEmpty_nil, if_true]
          have htw : ws.takeWhile (fun d => !isPySpace d) = [] := by
            cases ws with
            | nil => rfl
            | cons w ws' => simp [List.takeWhile, hws w (by simp)]
          have hdw : ws.dropWhile (fun d => !isPySpace d) = ws := by
            cases ws with
            | nil => rfl
            | cons w ws' => simp [List.dropWhile, hws w (by simp)]
          simp [htw, hdw, pySplitWs_all_space hws, pySplitWs_nil]
        · have hex : ∃ x ∈ rest, (fun d => !isPySpace d) x = false := by
            push_neg at hall
            obtain ⟨x, hx, hpx⟩ := hall
            exact ⟨x, hx, by simp [hpx]⟩
          obtain ⟨ht, hd⟩ := takeWhile_append_of_exists hex ws
          rw [ht, hd]
          congr 1
          have hlen : (rest.dropWhile (fun d => !isPySpace d)).length ≤ n := by
            have h1 := length_dropWhile_le (fun d => !isPySpace d) rest
            have h2 : rest.length ≤ n := by simpa using hs
            omega
          exact ih _ hlen

/-- `str.strip()` does not change the result of `str.split()`. -/
theorem pySplitWs_pyStrip (s : PyStr) :
    pySplitWs (pyStrip s) = pySplitWs s := by
  unfold pyStrip
  set s1 := s.dropWhile isPySpace with hs1
  have hsplit : s1 = (s1.reverse.dropWhile isPySpace).reverse ++
      (s1.reverse.takeWhile isPySpace).reverse := by
    conv_lhs => rw [← List.reverse_reverse s1,
      ← List.takeWhile_append_dropWhile isPySpace s1.reverse]
    rw [List.reverse_append]
  have hws : ∀ c ∈ (s1.reverse.takeWhile isPySpace).reverse, isPySpace c = true := by
    intro c hc
    exact List.mem_takeWhile_imp (List.mem_reverse.mp hc)
  calc pySplitWs (s1.reverse.dropWhile isPySpace).reverse
      = pySplitWs ((s1.reverse.dropWhile isPySpace).reverse ++
          (s1.reverse.takeWhile isPySpace).reverse) :=
        (pySplitWs_append_space _ hws _).symm
    _ = pySplitWs s1 := by rw [← hsplit]
    _ = pySplitWs s := pySplitWs_dropWhile s

/-! ## UTF-8 (`str.encode('utf-8')` / `bytes.decode('utf-8')`) -/

/-- A code point accepted by `str.encode('utf-8')`: a Unicode scalar value,
i.e. below `0x110000` and not a surrogate. -/
def ValidScalar (c : Nat) : Bool :=
  c < 0x110000 && !(0xD800 ≤ c && c < 0xE000)

/-- Valid text: every character is a Unicode scalar value. -/
def ValidText (s : PyStr) : Prop := ∀ c ∈ s, ValidScalar c = true

instance : DecidablePred ValidText := fun s =>
  inferInstanceAs (Decidable (∀ c ∈ s, ValidScalar c = true))

/-- The UTF-8 byte sequence of one scalar value. -/
def utf8EncodeChar (c : Nat) : List Nat :=
  if c < 0x80 then [c]
  else if c < 0x800 then [0xC0 + c / 64, 0x80 + c % 64]
  else if c < 0x10000 then
    [0xE0 + c / 4096, 0x80 + c / 64 % 64, 0x80 + c % 64]
  else
    [0xF0 + c / 262144, 0x80 + c / 4096 % 64, 0x80 + c / 64 % 64, 0x80 + c % 64]

/-- Python `str.encode('utf-8')` (strict): the concatenated UTF-8 bytes, or
`UnicodeEncodeError` if the string contains a lone surrogate. -/
def utf8Encode (s : PyStr) : Except PyErr (List Nat) :=
  if s.all ValidScalar then .ok (s.flatMap utf8EncodeChar)
  else .error .unicodeEncodeError

/-- Continuation/value handling for a 2-byte UTF-8 sequence with lead byte
`b` (`0xC2`–`0xDF`). -/
def utf8Two (b : Nat) : List Nat → Option (Nat × List Nat)
  | c1 :: bs' =>
    if 0x80 ≤ c1 ∧ c1 < 0xC0 then
      some ((b - 0xC0) * 64 + (c1 - 0x80), bs')
    else none
  | [] => none

/-- Continuation/value handling for a 3-byte UTF-8 sequence with lead byte
`b` (`0xE0`–`0xEF`); the conditions on the first continuation byte reject
overlong forms (after `0xE0`) and surrogates (after `0xED`). -/
def utf8Three (b : Nat) : List Nat → Option (Nat × List Nat)
  | c1 :: c2 :: bs' =>
    if 0x80 ≤ c1 ∧ c1 < 0xC0 ∧ 0x80 ≤ c2 ∧ c2 < 0xC0 ∧
       (b = 0xE0 → 0xA0 ≤ c1) ∧ (b = 0xED → c1 < 0xA0) then
      some ((b - 0xE0) * 4096 + (c1 - 0x80) * 64 + (c2 - 0x80), bs')
    else none
  | _ => none

/-- Continuation/value handling for a 4-byte UTF-8 sequence with lead byte
`b` (`0xF0`–`0xF4`); the conditions on the first continuation byte reject
overlong forms (after `0xF0`) and values above `0x10FFFF` (after `0xF4`). -/
def utf8Four (b : Nat) : List Nat → Option (Nat × List Nat)
  | c1 :: c2 :: c3 :: bs' =>
    if 0x80 ≤ c1 ∧ c1 < 0xC0 ∧ 0x80 ≤ c2 ∧ c2 < 0xC0 ∧
       0x80 ≤ c3 ∧ c3 < 0xC0 ∧
       (b = 0xF0 → 0x90 ≤ c1) ∧ (b = 0xF4 → c1 < 0x90) then
      some ((b - 0xF0) * 262144 + (c1 - 0x80) * 4096 + (c2 - 0x80) * 64 +
        (c3 - 0x80), bs')
    else none
  | _ => none

/-- Decode one scalar value from the front of a UTF-8 byte sequence,
returning the scalar and the remaining bytes; `none` on empty input, a
stray continuation byte, an overlong lead (`0xC0`/`0xC1`), a lead above
`0xF4`, or an ill-formed sequence. -/
def utf8DecodeOne : List Nat → Option (Nat × List Nat)
  | [] => none
  | b :: bs =>
    if b < 0x80 then some (b, bs)
    else if b < 0xC2 then none
    else if b < 0xE0 then utf8Two b bs
    else if b < 0xF0 then utf8Three b bs
    else if b < 0xF5 then utf8Four b bs
    else none

theorem utf8Two_length {b : Nat} {bs : List Nat} {c : Nat} {rest : List Nat}
    (h : utf8Two b bs = some (c, rest)) : rest.length < bs.length := by
  match bs with
  | [] => simp [utf8Two] at h
  | c1 :: bs' =>
    rw [utf8Two] at h
    split_ifs at h
    · cases h; simp only [List.length_cons]; omega

theorem utf8Three_length {b : Nat} {bs : List Nat} {c : Nat} {rest : List Nat}
    (h : utf8Three b bs = some (c, rest)) : rest.length < bs.length := by
  match bs with
  | [] => simp [utf8Three] at h
  | [c1] => simp [utf8Three] at h
  | c1 :: c2 :: bs' =>
    rw [utf8Three] at h
    split_ifs at h
    · cases h; simp only [List.length_cons]; omega

theorem utf8Four_length {b : Nat} {bs : List Nat} {c : Nat} {rest : List Nat}
    (h : utf8Four b bs = some (c, rest)) : rest.length < bs.length := by
  match bs with
  | [] => simp [utf8Four] at h
  | [c1] => simp [utf8Four] at h
  | [c1, c2] => simp [utf8Four] at h
  | c1 :: c2 :: c3 :: bs' =>
    rw [utf8Four] at h
    split_ifs at h
    · cases h; simp only [List.length_cons]; omega

theorem utf8DecodeOne_length {l : List Nat} {c : Nat} {rest : List Nat}
    (h : utf8DecodeOne l = some (c, rest)) : rest.length < l.length := by
  match l with
  | [] => simp [utf8DecodeOne] at h
  | b :: bs =>
    rw [utf8DecodeOne] at h
    split_ifs at h
    · cases h; simp only [List.length_cons]; omega
    · exact Nat.lt_succ_of_lt (utf8Two_length h)
    · exact Nat.lt_succ_of_lt (utf8Three_length h)
    · exact Nat.lt_succ_of_lt (utf8Four_length h)

/-- Fuel loop for the strict decoder: one fuel unit per decoded scalar.
`utf8Decode` supplies the list length as fuel, which always suffices
because every scalar consumes at least one byte. -/
def utf8DecodeLoop : Nat → List Nat → Option PyStr
  | _, [] => some []
  | 0, _ :: _ => none
  | fuel + 1, b :: bs =>
    match utf8DecodeOne (b :: bs) with
    | some (c, rest) => (utf8DecodeLoop fuel rest).map (c :: ·)
    | none => none

/-- Python `bytes.decode('utf-8')` (strict): a standard-conforming UTF-8
decoder that rejects truncated sequences, stray continuation bytes,
overlong forms, surrogates and values above `0x10FFFF`. -/
def utf8Decode (l : List Nat) : Option PyStr := utf8DecodeLoop l.length l

/-- Fuel loop for the replace-mode decoder; on an invalid sequence it
emits U+FFFD and resumes at the next byte. -/
def utf8DecodeReplaceLoop : Nat → List Nat → PyStr
  | _, [] => []
  | 0, _ :: _ => []
  | fuel + 1, b :: bs =>
    match utf8DecodeOne (b :: bs) with
    | some (c, rest) => c :: utf8DecodeReplaceLoop fuel rest
    | none => 0xFFFD :: utf8DecodeReplaceLoop fuel bs

/-- Python `bytes.decode('utf-8', errors='replace')`, approximated: as
`utf8Decode` but an invalid sequence emits U+FFFD and decoding resumes at
the next byte. CPython's replacement handler can skip a whole maximal
subpart of an invalid sequence instead of one byte, so the two agree on
all valid UTF-8 input — the only byte sequences reaching the decoder in
the theorems below — but may emit a different number of U+FFFD on some
invalid input. -/
def utf8DecodeReplace (l : List Nat) : PyStr := utf8DecodeReplaceLoop l.length l

theorem utf8DecodeLoop_congr :
    ∀ {f1 : Nat} {l : List Nat} {f2 : Nat}, l.length ≤ f1 → l.length ≤ f2 →
      utf8DecodeLoop f1 l = utf8DecodeLoop f2 l := by
  intro f1
  induction f1 with
  | zero =>
    intro l f2 h1 _
    have : l = [] := List.eq_nil_of_length_eq_zero (Nat.le_zero.mp h1)
    subst this
    cases f2 <;> rfl
  | succ f1 ih =>
    intro l f2 h1 h2
    cases l with
    | nil => cases f2 <;> rfl
    | cons b bs =>
      obtain ⟨f2', rfl⟩ : ∃ f2', f2 = f2' + 1 := by
        cases f2 with
        | zero => simp at h2
        | succ n => exact ⟨n, rfl⟩
      rw [utf8DecodeLoop, utf8DecodeLoop]
      cases hdo : utf8DecodeOne (b :: bs) with
      | none => rfl
      | some p =>
        obtain ⟨c, rest⟩ := p
        have hlen := utf8DecodeOne_length hdo
        have hr1 : rest.length ≤ f1 := by
          simp only [List.length_cons] at hlen h1
          omega
        have hr2 : rest.length ≤ f2' := by
          simp only [List.length_cons] at hlen h2
          omega
        simp only [ih hr1 hr2]

theorem utf8DecodeReplaceLoop_congr :
    ∀ {f1 : Nat} {l : List Nat} {f2 : Nat}, l.length ≤ f1 → l.length ≤ f2 →
      utf8DecodeReplaceLoop f1 l = utf8DecodeReplaceLoop f2 l := by
  intro f1
  induction f1 with
  | zero =>
    intro l f2 h1 _
    have : l = [] := List.eq_nil_of_length_eq_zero (Nat.le_zero.mp h1)
    subst this
    cases f2 <;> rfl
  | succ f1 ih =>
    intro l f2 h1 h2
    cases l with
    | nil => cases f2 <;> rfl
    | cons b bs =>
      obtain ⟨f2', rfl⟩ : ∃ f2', f2 = f2' + 1 := by
        cases f2 with
        | zero => simp at h2
        | succ n => exact ⟨n, rfl⟩
      rw [utf8DecodeReplaceLoop, utf8DecodeReplaceLoop]
      cases hdo : utf8DecodeOne (b :: bs) with
      | none =>
        have hb1 : bs.length ≤ f1 := by
          simp only [List.length_cons] at h1; omega
        have hb2 : bs.length ≤ f2' := by
          simp only [List.length_cons] at h2; omega
        simp only [ih hb1 hb2]
      | some p =>
        obtain ⟨c, rest⟩ := p
        have hlen := utf8DecodeOne_length hdo
        have hr1 : rest.length ≤ f1 := by
          simp only [List.length_cons] at hlen h1
          omega
        have hr2 : rest.length ≤ f2' := by
          simp only [List.length_cons] at hlen h2
          omega
        simp only [ih hr1 hr2]

theorem utf8Decode_nil : utf8Decode [] = some [] := rfl

theorem utf8DecodeReplace_nil : utf8DecodeReplace [] = [] := rfl

theorem utf8Decode_eq_some {l : List Nat} {c : Nat} {rest : List Nat}
    (h : utf8DecodeOne l = some (c, rest)) :
    utf8Decode l = (utf8Decode rest).map (c :: ·) := by
  match l with
  | [] => simp [utf8DecodeOne] at h
  | b :: bs =>
    have hlen := utf8DecodeOne_length h
    unfold utf8Decode
    rw [show ((b :: bs).length = bs.length + 1) from by simp, utf8DecodeLoop, h]
    have : utf8DecodeLoop bs.length rest = utf8DecodeLoop rest.length rest := by
      apply utf8DecodeLoop_congr _ le_rfl
      simp only [List.length_cons] at hlen
      omega
    simp only [this]

theorem utf8DecodeReplace_eq_some {l : List Nat} {c : Nat} {rest : List Nat}
    (h : utf8DecodeOne l = some (c, rest)) :
    utf8DecodeReplace l = c :: utf8DecodeReplace rest := by
  match l with
  | [] => simp [utf8DecodeOne] at h
  | b :: bs =>
    have hlen := utf8DecodeOne_length h
    unfold utf8DecodeReplace
    rw [show ((b :: bs).length = bs.length + 1) from by simp, utf8DecodeReplaceLoop, h]
    have : utf8DecodeReplaceLoop bs.length rest = utf8DecodeReplaceLoop rest.length rest := by
      apply utf8DecodeReplaceLoop_congr _ le_rfl
      simp only [List.length_cons] at hlen
      omega
    simp only [this]

/-- The UTF-8 bytes of a scalar value are bytes. -/
theorem utf8EncodeChar_isBytes {c : Nat} (h : ValidScalar c = true) :
    ∀ b ∈ utf8EncodeChar c, b < 256 := by
  have hv : c < 1114112 ∧ (c < 55296 ∨ 57344 ≤ c) := by
    simpa [ValidScalar] using h
  intro b hb
  unfold utf8EncodeChar at hb
  split_ifs at hb with h1 h2 h3 <;> simp at hb <;> omega

/-- Decoding one scalar after encoding it: the step functions invert
`utf8EncodeChar` on valid scalars. -/
theorem utf8DecodeOne_encodeChar {c : Nat} (h : ValidScalar c = true)
    (rest : List Nat) :
    utf8DecodeOne (utf8EncodeChar c ++ rest) = some (c, rest) := by
  have hv : c < 1114112 ∧ (c < 55296 ∨ 57344 ≤ c) := by
    simpa [ValidScalar] using h
  unfold utf8EncodeChar
  split_ifs with h1 h2 h3
  · simp only [List.cons_append, List.nil_append]
    rw [utf8DecodeOne, if_pos h1]
  · simp only [List.cons_append, List.nil_append]
    rw [utf8DecodeOne, if_neg (by omega), if_neg (by omega), if_pos (by omega),
      utf8Two, if_pos (by omega)]
    have hval : (192 + c / 64 - 192) * 64 + (128 + c % 64 - 128) = c := by omega
    rw [hval]
  · simp only [List.cons_append, List.nil_append]
    rw [utf8DecodeOne, if_neg (by omega), if_neg (by omega), if_neg (by omega),
      if_pos (by omega), utf8Three, if_pos (by omega)]
    have hval : (224 + c / 4096 - 224) * 4096 + (128 + c / 64 % 64 - 128) * 64 +
        (128 + c % 64 - 128) = c := by omega
    rw [hval]
  · simp only [List.cons_append, List.nil_append]
    rw [utf8DecodeOne, if_neg (by omega), if_neg (by omega), if_neg (by omega),
      if_neg (by omega), if_pos (by omega), utf8Four, if_pos (by omega)]
    have hval : (240 + c / 262144 - 240) * 262144 + (128 + c / 4096 % 64 - 128) * 4096 +
        (128 + c / 64 % 64 - 128) * 64 + (128 + c % 64 - 128) = c := by omega
    rw [hval]

/-- Decoding after the UTF-8 bytes of one valid scalar (strict decoder). -/
theorem utf8Decode_encodeChar {c : Nat} (h : ValidScalar c = true)
    (rest : List Nat) :
    utf8Decode (utf8EncodeChar c ++ rest) = (utf8Decode rest).map (c :: ·) :=
  utf8Decode_eq_some (utf8DecodeOne_encodeChar h rest)

/-- Decoding after the UTF-8 bytes of one valid scalar (replace decoder). -/
theorem utf8DecodeReplace_encodeChar {c : Nat} (h : ValidScalar c = true)
    (rest : List Nat) :
    utf8DecodeReplace (utf8EncodeChar c ++ rest) = c :: utf8DecodeReplace rest :=
  utf8DecodeReplace_eq_some (utf8DecodeOne_encodeChar h rest)

/-- Strict UTF-8 round-trip over valid text. -/
theorem utf8Decode_flatMap {s : PyStr} (h : ValidText s) :
    utf8Decode (s.flatMap utf8EncodeChar) = some s := by
  induction s with
  | nil => simpa using utf8Decode_nil
  | cons c cs ih =>
    rw [List.flatMap_cons, utf8Decode_encodeChar (h c (by simp)),
      ih fun a ha => h a (by simp [ha])]
    rfl

/-- Replace-mode UTF-8 round-trip over valid text. -/
theorem utf8DecodeReplace_flatMap {s : PyStr} (h : ValidText s) :
    utf8DecodeReplace (s.flatMap utf8EncodeChar) = s := by
  induction s with
  | nil => simpa using utf8DecodeReplace_nil
  | cons c cs ih =>
    rw [List.flatMap_cons, utf8DecodeReplace_encodeChar (h c (by simp)),
      ih fun a ha => h a (by simp [ha])]

/-- All bytes of an encoded valid text are bytes. -/
theorem utf8Encode_isBytes {s : PyStr} (h : ValidText s) :
    IsBytes (s.flatMap utf8EncodeChar) := by
  intro b hb
  obtain ⟨c, hcs, hbc⟩ := List.mem_flatMap.mp hb
  exact utf8EncodeChar_isBytes (h c hcs) b hbc

theorem utf8Encode_eq_ok {s : PyStr} (h : ValidText s) :
    utf8Encode s = .ok (s.flatMap utf8EncodeChar) := by
  unfold utf8Encode
  rw [if_pos (by simpa [List.all_eq_true] using h)]

/-! ## The `hex` codec (`bytes.hex()` / `bytes.fromhex`) -/

/-- Lowercase hex digit character for a value below 16, as emitted by
`bytes.hex()`. -/
def hexDigit (v : Nat) : Nat := if v < 10 then 48 + v else 87 + v

/-- `bytes.hex()`: two lowercase hex digits per byte, concatenated with no
separators (`TextEncoder.hex_encode` is `text.encode('utf-8').hex()`). -/
def bytesHex (bs : List Nat) : PyStr :=
  bs.flatMap fun b => [hexDigit (b / 16), hexDigit (b % 16)]

/-- Hex digit value accepted by `bytes.fromhex`: `0`-`9`, `a`-`f`, `A`-`F`. -/
def hexVal (c : Nat) : Option Nat :=
  if 48 ≤ c ∧ c ≤ 57 then some (c - 48)
  else if 97 ≤ c ∧ c ≤ 102 then some (c - 87)
  else if 65 ≤ c ∧ c ≤ 70 then some (c - 55)
  else none

/-- CPython `bytes.fromhex`: pairs of hex digits, with ASCII spaces allowed
between pairs and around the string but not inside a pair; any other
character, a space inside a pair, or a dangling single digit is a
`ValueError`. -/
def bytesFromHex : PyStr → Option (List Nat)
  | [] => some []
  | c :: rest =>
    if c = 32 then bytesFromHex rest
    else
      match rest with
      | c2 :: rest' =>
        match hexVal c, hexVal c2 with
        | some h, some l => (bytesFromHex rest').map ((h * 16 + l) :: ·)
        | _, _ => none
      | [] => none

theorem hexVal_hexDigit : ∀ v, v < 16 → hexVal (hexDigit v) = some v := by decide

theorem hexDigit_ne_space : ∀ v, v < 16 → ¬(hexDigit v = 32) := by decide

/-- `bytes.fromhex` inverts `bytes.hex()`. -/
theorem bytesFromHex_bytesHex {bs : List Nat} (h : IsBytes bs) :
    bytesFromHex (bytesHex bs) = some bs := by
  induction bs with
  | nil => rfl
  | cons b bs ih =>
    have hb : b < 256 := h b (by simp)
    have h16 : b / 16 < 16 := by omega
    have hm : b % 16 < 16 := by omega
    rw [show bytesHex (b :: bs) =
      hexDigit (b / 16) :: hexDigit (b % 16) :: bytesHex bs from rfl]
    rw [bytesFromHex, if_neg (hexDigit_ne_space _ h16)]
    simp only [hexVal_hexDigit _ h16, hexVal_hexDigit _ hm]
    rw [ih fun x hx => h x (by simp [hx])]
    have : b / 16 * 16 + b % 16 = b := by omega
    simp [this]

/-! ## The `rot13` codec (`codecs.encode/decode(text, 'rot_13')`) -/

/-- The `rot_13` character map from CPython `encodings/rot_13.py`: ASCII
letters rotate by 13 within their case, all other characters are
unchanged. `codecs.encode(text, 'rot_13')` and
`codecs.decode(text, 'rot_13')` both apply this same map, so
`TextEncoder.rot13_encode` and `TextEncoder.rot13_decode` are the same
transform. -/
def rot13Char (c : Nat) : Nat :=
  if 65 ≤ c ∧ c ≤ 90 then 65 + (c - 65 + 13) % 26
  else if 97 ≤ c ∧ c ≤ 122 then 97 + (c - 97 + 13) % 26
  else c

/-- `codecs.encode(text, 'rot_13')` = `codecs.decode(text, 'rot_13')`. -/
def pyRot13 (s : PyStr) : PyStr := s.map rot13Char

theorem rot13Char_involutive (c : Nat) : rot13Char (rot13Char c) = c := by
  by_cases h1 : 65 ≤ c ∧ c ≤ 90
  · have hin : rot13Char c = 65 + (c - 65 + 13) % 26 := by
      rw [rot13Char, if_pos h1]
    rw [hin, rot13Char, if_pos (by constructor <;> omega)]
    omega
  · by_cases h2 : 97 ≤ c ∧ c ≤ 122
    · have hin : rot13Char c = 97 + (c - 97 + 13) % 26 := by
        rw [rot13Char, if_neg h1, if_pos h2]
      rw [hin, rot13Char, if_neg (by omega), if_pos (by constructor <;> omega)]
      omega
    · have hin : rot13Char c = c := by
        rw [rot13Char, if_neg h1, if_neg h2]
      rw [hin, hin]

theorem pyRot13_involutive (s : PyStr) : pyRot13 (pyRot13 s) = s := by
  unfold pyRot13
  rw [List.map_map]
  have : rot13Char ∘ rot13Char = id := funext rot13Char_involutive
  simp [this]

/-! ## `int(token, base)` and the `binary` / `octal` codecs -/

/-- ASCII digit value as used by CPython `int(string, base)`:
`0`-`9`, `a`-`z`, `A`-`Z`. -/
def digitVal (c : Nat) : Option Nat :=
  if 48 ≤ c ∧ c ≤ 57 then some (c - 48)
  else if 97 ≤ c ∧ c ≤ 122 then some (c - 87)
  else if 65 ≤ c ∧ c ≤ 90 then some (c - 55)
  else none

/-- One digit step of `int(string, base)`: accept a digit of the base and
accumulate it. -/
def pyIntStep (base acc c : Nat) : Option Nat :=
  match digitVal c with
  | some d => if d < base then some (acc * base + d) else none
  | none => none

/-- Digit tail of an `int()` literal: further digits, with a single
underscore allowed between digits. -/
def pyIntCore (base : Nat) : PyStr → Nat → Option Nat
  | [], acc => some acc
  | c :: rest, acc =>
    if c = 95 then
      match rest with
      | c2 :: rest' =>
        match pyIntStep base acc c2 with
        | some acc' => pyIntCore base rest' acc'
        | none => none
      | [] => none
    else
      match pyIntStep base acc c with
      | some acc' => pyIntCore base rest acc'
      | none => none

/-- Digit run of an `int()` literal: must start with a digit. -/
def pyIntDigits (base : Nat) : PyStr → Option Nat
  | c :: rest =>
    match pyIntStep base 0 c with
    | some acc => pyIntCore base rest acc
    | none => none
  | [] => none

/-- Unsigned body of an `int(string, base)` literal: an optional `0b`/`0B`
(base 2) or `0o`/`0O` (base 8) prefix, optionally followed by a single
underscore, then digits. -/
def pyIntBody (base : Nat) (s : PyStr) : Option Nat :=
  match s with
  | c0 :: cp :: rest =>
    if c0 = 48 ∧ ((base = 2 ∧ (cp = 98 ∨ cp = 66)) ∨
                  (base = 8 ∧ (cp = 111 ∨ cp = 79))) then
      match rest with
      | c :: rest' =>
        if c = 95 then pyIntDigits base rest' else pyIntDigits base rest
      | [] => none
    else pyIntDigits base s
  | _ => pyIntDigits base s

/-- CPython `int(token, base)` for base 2 or 8, on a token free of
whitespace (the only way it is called here, after `str.split()`):
an optional single `+`/`-` sign, then the unsigned body. Restricted to
ASCII digits: CPython also accepts non-ASCII decimal digit characters,
which no input considered in the theorems below contains. -/
def pyInt (base : Nat) (s : PyStr) : Option Int :=
  match s with
  | c :: rest =>
    if c = 43 then (pyIntBody base rest).map Int.ofNat
    else if c = 45 then (pyIntBody base rest).map (fun n => -(n : Int))
    else (pyIntBody base s).map Int.ofNat
  | [] => none

/-- `format(byte, '08b')` for a byte value: exactly eight `0`/`1`
characters, zero-padded. -/
def byteBits (b : Nat) : PyStr :=
  [48 + b / 128 % 2, 48 + b / 64 % 2, 48 + b / 32 % 2, 48 + b / 16 % 2,
   48 + b / 8 % 2, 48 + b / 4 % 2, 48 + b / 2 % 2, 48 + b % 2]

/-- `format(byte, '03o')` for a byte value: exactly three octal digits,
zero-padded (a byte is below 512, so never more than three digits). -/
def byteOct (b : Nat) : PyStr :=
  [48 + b / 64 % 8, 48 + b / 8 % 8, 48 + b % 8]

/-- `TextEncoder.binary_encode`:
`' '.join(format(byte, '08b') for byte in text.encode('utf-8'))`. -/
def binary_encode (s : PyStr) : Except PyErr PyStr :=
  (utf8Encode s).map fun bs => spaceJoin (bs.map byteBits)

/-- `TextEncoder.octal_encode`:
`' '.join(format(byte, '03o') for byte in text.encode('utf-8'))`. -/
def octal_encode (s : PyStr) : Except PyErr PyStr :=
  (utf8Encode s).map fun bs => spaceJoin (bs.map byteOct)

/-- `TextEncoder.binary_decode`: `encoded.strip().split()`, each token
parsed with `int(token, 2)`; `bytearray(...)` requires every value in
0..255 (`ValueError` otherwise); the bytes are then decoded as UTF-8. -/
def binary_decode (s : PyStr) : Except PyErr PyStr :=
  match (pySplitWs (pyStrip s)).mapM (pyInt 2) with
  | none => .error .valueError
  | some vals =>
    if vals.all fun v => 0 ≤ v && v < 256 then
      match utf8Decode (vals.map Int.toNat) with
      | some t => .ok t
      | none => .error .unicodeDecodeError
    else .error .valueError

/-- `TextEncoder.octal_decode`: as `binary_decode` with `int(token, 8)`. -/
def octal_decode (s : PyStr) : Except PyErr PyStr :=
  match (pySplitWs (pyStrip s)).mapM (pyInt 8) with
  | none => .error .valueError
  | some vals =>
    if vals.all fun v => 0 ≤ v && v < 256 then
      match utf8Decode (vals.map Int.toNat) with
      | some t => .ok t
      | none => .error .unicodeDecodeError
    else .error .valueError

theorem pyInt_byteBits : ∀ b, b < 256 → pyInt 2 (byteBits b) = some (b : Int) := by
  decide

theorem pyInt_byteOct : ∀ b, b < 256 → pyInt 8 (byteOct b) = some (b : Int) := by
  decide

theorem byteBits_wsToken : ∀ b, b < 256 → WsToken (byteBits b) := by
  intro b hb
  refine ⟨by simp [byteBits], ?_⟩
  intro c hc
  have : c = 48 + b / 128 % 2 ∨ c = 48 + b / 64 % 2 ∨ c = 48 + b / 32 % 2 ∨
      c = 48 + b / 16 % 2 ∨ c = 48 + b / 8 % 2 ∨ c = 48 + b / 4 % 2 ∨
      c = 48 + b / 2 % 2 ∨ c = 48 + b % 2 := by
    simpa [byteBits] using hc
  have hc' : 48 ≤ c ∧ c ≤ 49 := by rcases this with h | h | h | h | h | h | h | h <;> omega
  simp [isPySpace]
  omega

theorem byteOct_wsToken : ∀ b, b < 256 → WsToken (byteOct b) := by
  intro b hb
  refine ⟨by simp [byteOct], ?_⟩
  intro c hc
  have : c = 48 + b / 64 % 8 ∨ c = 48 + b / 8 % 8 ∨ c = 48 + b % 8 := by
    simpa [byteOct] using hc
  have hc' : 48 ≤ c ∧ c ≤ 55 := by rcases this with h | h | h <;> omega
  simp [isPySpace]
  omega

theorem mapM_pyInt_byteBits {bs : List Nat} (h : IsBytes bs) :
    (bs.map byteBits).mapM (pyInt 2) = some (bs.map Int.ofNat) := by
  induction bs with
  | nil => rfl
  | cons b bs ih =>
    have hb : b < 256 := h b (by simp)
    simp only [List.map_cons, List.mapM_cons, pyInt_byteBits b hb,
      ih fun x hx => h x (by simp [hx]), Option.pure_def, Option.bind_eq_bind,
      Option.some_bind]
    rfl

theorem mapM_pyInt_byteOct {bs : List Nat} (h : IsBytes bs) :
    (bs.map byteOct).mapM (pyInt 8) = some (bs.map Int.ofNat) := by
  induction bs with
  | nil => rfl
  | cons b bs ih =>
    have hb : b < 256 := h b (by simp)
    simp only [List.map_cons, List.mapM_cons, pyInt_byteOct b hb,
      ih fun x hx => h x (by simp [hx]), Option.pure_def, Option.bind_eq_bind,
      Option.some_bind]
    rfl

/-- Decoding the `binary` encoding of the UTF-8 bytes of valid text
recovers the text. -/
theorem binary_decode_encode {s : PyStr} (h : ValidText s) :
    binary_decode (spaceJoin ((s.flatMap utf8EncodeChar).map byteBits)) =
      .ok s := by
  have hbytes : IsBytes (s.flatMap utf8EncodeChar) := utf8Encode_isBytes h
  have htoks : ∀ t ∈ (s.flatMap utf8EncodeChar).map byteBits, WsToken t := by
    intro t ht
    obtain ⟨b, hb, rfl⟩ := List.mem_map.mp ht
    exact byteBits_wsToken b (hbytes b hb)
  unfold binary_decode
  rw [pySplitWs_pyStrip, pySplitWs_spaceJoin htoks, mapM_pyInt_byteBits hbytes]
  show (if ((s.flatMap utf8EncodeChar).map Int.ofNat).all (fun v => 0 ≤ v && v < 256) then _ else _) = _
  rw [if_pos ?hall]
  case hall =>
    rw [List.all_eq_true]
    intro v hv
    obtain ⟨b, hb, rfl⟩ := List.mem_map.mp hv
    have := hbytes b hb
    simp
    omega
  rw [show ((s.flatMap utf8EncodeChar).map Int.ofNat).map Int.toNat =
      s.flatMap utf8EncodeChar from by
        simp only [List.map_map]
        rw [show Int.toNat ∘ Int.ofNat = id from funext fun n => rfl,
          List.map_id], utf8Decode_flatMap h]

/-- Decoding the `octal` encoding of the UTF-8 bytes of valid text
recovers the text. -/
theorem octal_decode_encode {s : PyStr} (h : ValidText s) :
    octal_decode (spaceJoin ((s.flatMap utf8EncodeChar).map byteOct)) =
      .ok s := by
  have hbytes : IsBytes (s.flatMap utf8EncodeChar) := utf8Encode_isBytes h
  have htoks : ∀ t ∈ (s.flatMap utf8EncodeChar).map byteOct, WsToken t := by
    intro t ht
    obtain ⟨b, hb, rfl⟩ := List.mem_map.mp ht
    exact byteOct_wsToken b (hbytes b hb)
  unfold octal_decode
  rw [pySplitWs_pyStrip, pySplitWs_spaceJoin htoks, mapM_pyInt_byteOct hbytes]
  show (if ((s.flatMap utf8EncodeChar).map Int.ofNat).all (fun v => 0 ≤ v && v < 256) then _ else _) = _
  rw [if_pos ?hall]
  case hall =>
    rw [List.all_eq_true]
    intro v hv
    obtain ⟨b, hb, rfl⟩ := List.mem_map.mp hv
    have := hbytes b hb
    simp
    omega
  rw [show ((s.flatMap utf8EncodeChar).map Int.ofNat).map Int.toNat =
      s.flatMap utf8EncodeChar from by
        simp only [List.map_map]
        rw [show Int.toNat ∘ Int.ofNat = id from funext fun n => rfl,
          List.map_id], utf8Decode_flatMap h]

/-! ## The `base64` codec (`base64.b64encode` / `base64.b64decode`) -/

/-- Character of the standard Base64 alphabet for a 6-bit value. -/
def b64Char (v : Nat) : Nat :=
  if v < 26 then 65 + v
  else if v < 52 then 97 + (v - 26)
  else if v < 62 then 48 + (v - 52)
  else if v = 62 then 43
  else 47

/-- 6-bit value of a standard Base64 alphabet character (the
`table_a2b_base64` lookup of `binascii`). -/
def b64Val (c : Nat) : Option Nat :=
  if 65 ≤ c ∧ c ≤ 90 then some (c - 65)
  else if 97 ≤ c ∧ c ≤ 122 then some (c - 71)
  else if 48 ≤ c ∧ c ≤ 57 then some (c + 4)
  else if c = 43 then some 62
  else if c = 47 then some 63
  else none

/-- `base64.b64encode` over a byte sequence: 3-byte groups become four
alphabet characters; a 2-byte remainder becomes three characters and `=`;
a 1-byte remainder becomes two characters and `==`. -/
def b64EncodeBytes : List Nat → PyStr
  | b0 :: b1 :: b2 :: rest =>
    b64Char (b0 / 4) :: b64Char (b0 % 4 * 16 + b1 / 16) ::
    b64Char (b1 % 16 * 4 + b2 / 64) :: b64Char (b2 % 64) :: b64EncodeBytes rest
  | [b0, b1] =>
    [b64Char (b0 / 4), b64Char (b0 % 4 * 16 + b1 / 16), b64Char (b1 % 16 * 4), 61]
  | [b0] => [b64Char (b0 / 4), b64Char (b0 % 4 * 16), 61, 61]
  | [] => []

/-- The character loop of CPython `binascii.a2b_base64` in non-strict mode
(the mode `base64.b64decode(s)` uses): characters outside the alphabet are
silently discarded; `=` after at least two data characters of a quad
completes it and terminates decoding, ignoring the rest of the input
(`=` elsewhere is ignored); each group of four data characters emits
three bytes (quads are tracked by `quadPos` with the pending bits in
`leftchar`); leftover data characters at the end are an error
(`binascii.Error`: one leftover data character is "Invalid base64-encoded
string", two or three are "Incorrect padding"). -/
def a2b64 : PyStr → Nat → Nat → Nat → Except PyErr (List Nat)
  | [], quadPos, _, _ =>
    if quadPos = 0 then .ok [] else .error .binasciiError
  | c :: rest, quadPos, leftchar, pads =>
    if c = 61 then
      if 2 ≤ quadPos then
        if 4 ≤ quadPos + pads + 1 then .ok []
        else a2b64 rest quadPos leftchar (pads + 1)
      else a2b64 rest quadPos leftchar pads
    else
      match b64Val c with
      | none => a2b64 rest quadPos leftchar pads
      | some v =>
        if quadPos = 0 then a2b64 rest 1 v 0
        else if quadPos = 1 then
          (a2b64 rest 2 (v % 16) 0).map ((leftchar * 4 + v / 16) :: ·)
        else if quadPos = 2 then
          (a2b64 rest 3 (v % 4) 0).map ((leftchar * 16 + v / 4) :: ·)
        else (a2b64 rest 0 0 0).map ((leftchar * 64 + v) :: ·)

/-- `base64.b64decode(s)` for a `str` argument: the string must be pure
ASCII (`_bytes_from_decode_data` raises `ValueError` otherwise), then
`binascii.a2b_base64` runs in non-strict mode. -/
def b64decodePy (s : PyStr) : Except PyErr (List Nat) :=
  if s.all (· < 128) then a2b64 s 0 0 0 else .error .valueError

theorem b64Val_b64Char : ∀ v, v < 64 → b64Val (b64Char v) = some v := by decide

theorem b64Char_ne_eq : ∀ v, v < 64 → ¬(b64Char v = 61) := by decide

theorem b64Char_ascii : ∀ v, v < 64 → b64Char v < 128 := by decide

theorem a2b64_data_step {c v : Nat} (hv : b64Val c = some v) (hne : c ≠ 61)
    (rest : PyStr) (qp lc pads : Nat) :
    a2b64 (c :: rest) qp lc pads =
      if qp = 0 then a2b64 rest 1 v 0
      else if qp = 1 then
        (a2b64 rest 2 (v % 16) 0).map ((lc * 4 + v / 16) :: ·)
      else if qp = 2 then
        (a2b64 rest 3 (v % 4) 0).map ((lc * 16 + v / 4) :: ·)
      else (a2b64 rest 0 0 0).map ((lc * 64 + v) :: ·) := by
  rw [a2b64, if_neg hne]
  simp only [hv]

theorem a2b64_quad {v0 v1 v2 v3 : Nat} (h0 : v0 < 64) (h1 : v1 < 64)
    (h2 : v2 < 64) (h3 : v3 < 64) (rest : PyStr) :
    a2b64 (b64Char v0 :: b64Char v1 :: b64Char v2 :: b64Char v3 :: rest) 0 0 0 =
      (a2b64 rest 0 0 0).map
        (fun bs => (v0 * 4 + v1 / 16) :: (v1 % 16 * 16 + v2 / 4) ::
          (v2 % 4 * 64 + v3) :: bs) := by
  rw [a2b64_data_step (b64Val_b64Char v0 h0) (b64Char_ne_eq v0 h0),
    if_pos (rfl : (0 : Nat) = 0)]
  rw [a2b64_data_step (b64Val_b64Char v1 h1) (b64Char_ne_eq v1 h1),
    if_neg (by decide : ¬(1 : Nat) = 0), if_pos (rfl : (1 : Nat) = 1)]
  rw [a2b64_data_step (b64Val_b64Char v2 h2) (b64Char_ne_eq v2 h2),
    if_neg (by decide : ¬(2 : Nat) = 0), if_neg (by decide : ¬(2 : Nat) = 1),
    if_pos (rfl : (2 : Nat) = 2)]
  rw [a2b64_data_step (b64Val_b64Char v3 h3) (b64Char_ne_eq v3 h3),
    if_neg (by decide : ¬(3 : Nat) = 0), if_neg (by decide : ¬(3 : Nat) = 1),
    if_neg (by decide : ¬(3 : Nat) = 2)]
  cases hres : a2b64 rest 0 0 0 with
  | error e => rfl
  | ok l => rfl

theorem a2b64_pad2 {v0 v1 : Nat} (h0 : v0 < 64) (h1 : v1 < 64) :
    a2b64 [b64Char v0, b64Char v1, 61, 61] 0 0 0 =
      .ok [v0 * 4 + v1 / 16] := by
  rw [a2b64_data_step (b64Val_b64Char v0 h0) (b64Char_ne_eq v0 h0),
    if_pos (rfl : (0 : Nat) = 0)]
  rw [a2b64_data_step (b64Val_b64Char v1 h1) (b64Char_ne_eq v1 h1),
    if_neg (by decide : ¬(1 : Nat) = 0), if_pos (rfl : (1 : Nat) = 1)]
  rw [show a2b64 [61, 61] 2 (v1 % 16) 0 = a2b64 [61] 2 (v1 % 16) 1 from by
    rw [a2b64, if_pos (rfl : (61 : Nat) = 61), if_pos (by decide : 2 ≤ 2),
      if_neg (by decide : ¬(4 ≤ 2 + 0 + 1))]]
  rw [show a2b64 [61] 2 (v1 % 16) 1 = .ok [] from by
    rw [a2b64, if_pos (rfl : (61 : Nat) = 61), if_pos (by decide : 2 ≤ 2),
      if_pos (by decide : 4 ≤ 2 + 1 + 1)]]
  rfl

theorem a2b64_pad1 {v0 v1 v2 : Nat} (h0 : v0 < 64) (h1 : v1 < 64)
    (h2 : v2 < 64) :
    a2b64 [b64Char v0, b64Char v1, b64Char v2, 61] 0 0 0 =
      .ok [v0 * 4 + v1 / 16, v1 % 16 * 16 + v2 / 4] := by
  rw [a2b64_data_step (b64Val_b64Char v0 h0) (b64Char_ne_eq v0 h0),
    if_pos (rfl : (0 : Nat) = 0)]
  rw [a2b64_data_step (b64Val_b64Char v1 h1) (b64Char_ne_eq v1 h1),
    if_neg (by decide : ¬(1 : Nat) = 0), if_pos (rfl : (1 : Nat) = 1)]
  rw [a2b64_data_step (b64Val_b64Char v2 h2) (b64Char_ne_eq v2 h2),
    if_neg (by decide : ¬(2 : Nat) = 0), if_neg (by decide : ¬(2 : Nat) = 1),
    if_pos (rfl : (2 : Nat) = 2)]
  rw [show a2b64 [61] 3 (v2 % 4) 0 = .ok [] from by
    rw [a2b64, if_pos (rfl : (61 : Nat) = 61), if_pos (by decide : 2 ≤ 3),
      if_pos (by decide : 4 ≤ 3 + 0 + 1)]]
  rfl

/-- `binascii.a2b_base64` (non-strict) inverts `base64.b64encode`. -/
theorem a2b64_encodeBytes {bs : List Nat} (h : IsBytes bs) :
    a2b64 (b64EncodeBytes bs) 0 0 0 = .ok bs := by
  suffices H : ∀ n bs, bs.length ≤ n → IsBytes bs →
      a2b64 (b64EncodeBytes bs) 0 0 0 = .ok bs from H bs.length bs le_rfl h
  intro n
  induction n with
  | zero =>
    intro bs hlen _
    have : bs = [] := List.eq_nil_of_length_eq_zero (Nat.le_zero.mp hlen)
    subst this
    rfl
  | succ n ih =>
    intro bs hlen hbytes
    match bs with
    | [] => rfl
    | [b0] =>
      have hb0 : b0 < 256 := hbytes b0 (by simp)
      rw [show b64EncodeBytes [b0] =
        [b64Char (b0 / 4), b64Char (b0 % 4 * 16), 61, 61] from rfl]
      rw [a2b64_pad2 (by omega) (by omega)]
      congr 1
      have : b0 % 4 * 16 / 16 = b0 % 4 := by omega
      simp [this]
      omega
    | [b0, b1] =>
      have hb0 : b0 < 256 := hbytes b0 (by simp)
      have hb1 : b1 < 256 := hbytes b1 (by simp)
      rw [show b64EncodeBytes [b0, b1] =
        [b64Char (b0 / 4), b64Char (b0 % 4 * 16 + b1 / 16),
         b64Char (b1 % 16 * 4), 61] from rfl]
      rw [a2b64_pad1 (by omega) (by omega) (by omega)]
      congr 1
      congr 1
      · omega
      congr 1
      omega
    | b0 :: b1 :: b2 :: rest =>
      have hb0 : b0 < 256 := hbytes b0 (by simp)
      have hb1 : b1 < 256 := hbytes b1 (by simp)
      have hb2 : b2 < 256 := hbytes b2 (by simp)
      rw [show b64EncodeBytes (b0 :: b1 :: b2 :: rest) =
        b64Char (b0 / 4) :: b64Char (b0 % 4 * 16 + b1 / 16) ::
        b64Char (b1 % 16 * 4 + b2 / 64) :: b64Char (b2 % 64) ::
        b64EncodeBytes rest from rfl]
      rw [a2b64_quad (by omega) (by omega) (by omega) (by omega)]
      rw [ih rest (by simp only [List.length_cons] at hlen; omega)
        fun x hx => hbytes x (by simp [hx])]
      have e0 : b0 / 4 * 4 + (b0 % 4 * 16 + b1 / 16) / 16 = b0 := by omega
      have e1 : (b0 % 4 * 16 + b1 / 16) % 16 * 16 + (b1 % 16 * 4 + b2 / 64) / 4 = b1 := by
        omega
      have e2 : (b1 % 16 * 4 + b2 / 64) % 4 * 64 + b2 % 64 = b2 := by omega
      simp [e0, e1, e2]
      rfl

/-- On input consisting only of Base64 alphabet characters (no `=`, no
foreign characters), the decoder errors whenever the number of characters
is not a multiple of four. -/
theorem a2b64_all_alpha :
    ∀ (s : PyStr) (qp lc : Nat), (∀ c ∈ s, c ≠ 61 ∧ (b64Val c).isSome) →
      qp ≤ 3 → (qp + s.length) % 4 ≠ 0 →
      ∃ e, a2b64 s qp lc 0 = .error e := by
  intro s
  induction s with
  | nil =>
    intro qp lc _ _ hmod
    refine ⟨.binasciiError, ?_⟩
    rw [a2b64, if_neg (by simp at hmod; omega)]
  | cons c rest ih =>
    intro qp lc hc hqp hmod
    obtain ⟨hne, hsome⟩ := hc c (by simp)
    obtain ⟨v, hv⟩ := Option.isSome_iff_exists.mp hsome
    have hrest : ∀ x ∈ rest, x ≠ 61 ∧ (b64Val x).isSome := fun x hx =>
      hc x (by simp [hx])
    rw [a2b64_data_step hv hne]
    simp only [List.length_cons] at hmod
    interval_cases qp
    · rw [if_pos rfl]
      exact ih 1 v hrest (by omega) (by omega)
    · rw [if_neg (by decide : ¬(1 : Nat) = 0), if_pos rfl]
      obtain ⟨e, he⟩ := ih 2 (v % 16) hrest (by omega) (by omega)
      exact ⟨e, by rw [he]; rfl⟩
    · rw [if_neg (by decide : ¬(2 : Nat) = 0), if_neg (by decide : ¬(2 : Nat) = 1),
        if_pos rfl]
      obtain ⟨e, he⟩ := ih 3 (v % 4) hrest (by omega) (by omega)
      exact ⟨e, by rw [he]; rfl⟩
    · rw [if_neg (by decide : ¬(3 : Nat) = 0), if_neg (by decide : ¬(3 : Nat) = 1),
        if_neg (by decide : ¬(3 : Nat) = 2)]
      obtain ⟨e, he⟩ := ih 0 0 hrest (by omega) (by omega)
      exact ⟨e, by rw [he]; rfl⟩

/-! ## The `base32` codec (`base64.b32encode` / `base64.b32decode`) -/

/-- Character of the RFC 4648 Base32 alphabet (`A`-`Z`, `2`-`7`) for a
5-bit value. -/
def b32Char (v : Nat) : Nat := if v < 26 then 65 + v else 50 + (v - 26)

/-- 5-bit value of a Base32 alphabet character. -/
def b32Val (c : Nat) : Option Nat :=
  if 65 ≤ c ∧ c ≤ 90 then some (c - 65)
  else if 50 ≤ c ∧ c ≤ 55 then some (c - 24)
  else none

/-- `base64.b32encode` over a byte sequence: 5-byte groups become eight
alphabet characters (the 5-bit groups of the 40-bit big-endian word, which
the formulas below spell out digit by digit); a leftover of 1/2/3/4 bytes
keeps the first 2/4/5/7 characters of the zero-padded group and appends
6/4/3/1 `=` characters. -/
def b32EncodeBytes : List Nat → PyStr
  | b0 :: b1 :: b2 :: b3 :: b4 :: rest =>
    b32Char (b0 / 8) :: b32Char (b0 % 8 * 4 + b1 / 64) ::
    b32Char (b1 / 2 % 32) :: b32Char (b1 % 2 * 16 + b2 / 16) ::
    b32Char (b2 % 16 * 2 + b3 / 128) :: b32Char (b3 / 4 % 32) ::
    b32Char (b3 % 4 * 8 + b4 / 32) :: b32Char (b4 % 32) :: b32EncodeBytes rest
  | [] => []
  | [b0] =>
    [b32Char (b0 / 8), b32Char (b0 % 8 * 4), 61, 61, 61, 61, 61, 61]
  | [b0, b1] =>
    [b32Char (b0 / 8), b32Char (b0 % 8 * 4 + b1 / 64), b32Char (b1 / 2 % 32),
     b32Char (b1 % 2 * 16), 61, 61, 61, 61]
  | [b0, b1, b2] =>
    [b32Char (b0 / 8), b32Char (b0 % 8 * 4 + b1 / 64), b32Char (b1 / 2 % 32),
     b32Char (b1 % 2 * 16 + b2 / 16), b32Char (b2 % 16 * 2), 61, 61, 61]
  | [b0, b1, b2, b3] =>
    [b32Char (b0 / 8), b32Char (b0 % 8 * 4 + b1 / 64), b32Char (b1 / 2 % 32),
     b32Char (b1 % 2 * 16 + b2 / 16), b32Char (b2 % 16 * 2 + b3 / 128),
     b32Char (b3 / 4 % 32), b32Char (b3 % 4 * 8), 61]

/-- The five big-endian bytes of a 40-bit word (`acc.to_bytes(5, 'big')`). -/
def word5 (w : Nat) : List Nat :=
  [w / 4294967296 % 256, w / 16777216 % 256, w / 65536 % 256,
   w / 256 % 256, w % 256]

/-- The partial-quanta step of `base64.b32decode`: the leftover characters
are accumulated into `acc`, shifted up by five bits per padding character,
and the first `(43 - 5 * padchars) / 8` of the five bytes are kept. -/
def b32Partial (padchars : Nat) (leftover : List Nat) : List Nat :=
  (word5 ((leftover.foldl (fun a v => a * 32 + v) 0) * 2 ^ (5 * padchars))).take
    ((43 - 5 * padchars) / 8)

/-- The quanta loop of `base64.b32decode` over the 5-bit values of the
stripped input: each full group of eight values yields the five bytes of
its 40-bit word; a leftover group goes through the partial-quanta step. -/
def b32DecodeVals (padchars : Nat) : List Nat → List Nat
  | v0 :: v1 :: v2 :: v3 :: v4 :: v5 :: v6 :: v7 :: rest =>
    word5 (v0 * 34359738368 + v1 * 1073741824 + v2 * 33554432 + v3 * 1048576 +
      v4 * 32768 + v5 * 1024 + v6 * 32 + v7) ++ b32DecodeVals padchars rest
  | [] => []
  | [v0] => b32Partial padchars [v0]
  | [v0, v1] => b32Partial padchars [v0, v1]
  | [v0, v1, v2] => b32Partial padchars [v0, v1, v2]
  | [v0, v1, v2, v3] => b32Partial padchars [v0, v1, v2, v3]
  | [v0, v1, v2, v3, v4] => b32Partial padchars [v0, v1, v2, v3, v4]
  | [v0, v1, v2, v3, v4, v5] => b32Partial padchars [v0, v1, v2, v3, v4, v5]
  | [v0, v1, v2, v3, v4, v5, v6] =>
    b32Partial padchars [v0, v1, v2, v3, v4, v5, v6]

/-- `str.rstrip('=')`: remove trailing `=` characters. -/
def rstrip61 (s : PyStr) : PyStr := (s.reverse.dropWhile (· == 61)).reverse

/-- `base64.b32decode(s)` for a `str` argument: the string must be ASCII
(`ValueError` otherwise); a length not a multiple of eight, a padding
amount outside {0,1,3,4,6}, or any character outside the alphabet after
stripping trailing `=` is `binascii.Error`; otherwise the quanta loop
reassembles the bytes. -/
def b32decodePy (s : PyStr) : Except PyErr (List Nat) :=
  if ¬s.all (· < 128) then .error .valueError
  else if s.length % 8 ≠ 0 then .error .binasciiError
  else
    let body := rstrip61 s
    let padchars := s.length - body.length
    match body.mapM b32Val with
    | none => .error .binasciiError
    | some vals =>
      if padchars = 0 ∨ padchars = 1 ∨ padchars = 3 ∨ padchars = 4 ∨
         padchars = 6 then
        .ok (b32DecodeVals padchars vals)
      else .error .binasciiError

theorem b32Val_b32Char : ∀ v, v < 32 → b32Val (b32Char v) = some v := by decide

theorem b32Char_ne_eq : ∀ v, v < 32 → ¬(b32Char v = 61) := by decide

theorem b32Char_ascii : ∀ v, v < 32 → b32Char v < 128 := by decide

theorem rstrip61_append {xs : PyStr} (h : ∀ c ∈ xs, c ≠ 61) (k : Nat) :
    rstrip61 (xs ++ List.replicate k 61) = xs := by
  unfold rstrip61
  rw [List.reverse_append, List.reverse_replicate]
  rw [List.dropWhile_append]
  have hrep : (List.replicate k 61).dropWhile (· == 61) = ([] : PyStr) :=
    dropWhile_eq_nil_of fun a ha => by
      simp [List.eq_of_mem_replicate ha]
  rw [hrep]
  simp only [List.isEmpty_nil, if_true]
  cases hxs : xs.reverse with
  | nil =>
    have : xs = [] := by simpa using congrArg List.reverse hxs
    simp [this, List.dropWhile]
  | cons c cr =>
    have hc : c ∈ xs := by
      have : c ∈ xs.reverse := by simp [hxs]
      simpa using this
    rw [List.dropWhile_cons_of_neg (by simpa using h c hc)]
    rw [← hxs]
    simp

theorem mapM_b32Val {vs : List Nat} (h : ∀ v ∈ vs, v < 32) :
    (vs.map b32Char).mapM b32Val = some vs := by
  induction vs with
  | nil => rfl
  | cons v vs ih =>
    simp only [List.map_cons, List.mapM_cons, b32Val_b32Char v (h v (by simp)),
      ih fun x hx => h x (by simp [hx]), Option.pure_def, Option.bind_eq_bind,
      Option.some_bind]

theorem b32Encode_structure :
    ∀ n bs, List.length bs ≤ n → IsBytes bs →
      ∃ vs k, b32EncodeBytes bs = vs.map b32Char ++ List.replicate k 61 ∧
        (∀ v ∈ vs, v < 32) ∧ (vs.length + k) % 8 = 0 ∧
        (k = 0 ∨ k = 1 ∨ k = 3 ∨ k = 4 ∨ k = 6) ∧
        b32DecodeVals k vs = bs := by
  intro n
  induction n with
  | zero =>
    intro bs hlen _
    have : bs = [] := List.eq_nil_of_length_eq_zero (Nat.le_zero.mp hlen)
    subst this
    exact ⟨[], 0, rfl, by simp, by simp, by simp, rfl⟩
  | succ n ih =>
    intro bs hlen hbytes
    match bs with
    | [] => exact ⟨[], 0, rfl, by simp, by simp, by simp, rfl⟩
    | [b0] =>
      have hb0 : b0 < 256 := hbytes b0 (by simp)
      refine ⟨[b0 / 8, b0 % 8 * 4], 6, rfl, ?_, by simp, by simp, ?_⟩
      · intro v hv
        simp at hv
        rcases hv with rfl | rfl <;> omega
      · show b32Partial 6 [b0 / 8, b0 % 8 * 4] = [b0]
        unfold b32Partial word5
        simp only [List.foldl]
        norm_num
        omega
    | [b0, b1] =>
      have hb0 : b0 < 256 := hbytes b0 (by simp)
      have hb1 : b1 < 256 := hbytes b1 (by simp)
      refine ⟨[b0 / 8, b0 % 8 * 4 + b1 / 64, b1 / 2 % 32, b1 % 2 * 16], 4,
        rfl, ?_, by simp, by simp, ?_⟩
      · intro v hv
        simp at hv
        rcases hv with rfl | rfl | rfl | rfl <;> omega
      · show b32Partial 4 [b0 / 8, b0 % 8 * 4 + b1 / 64, b1 / 2 % 32,
          b1 % 2 * 16] = [b0, b1]
        unfold b32Partial word5
        simp only [List.foldl]
        norm_num
        constructor
        · omega
        · omega
    | [b0, b1, b2] =>
      have hb0 : b0 < 256 := hbytes b0 (by simp)
      have hb1 : b1 < 256 := hbytes b1 (by simp)
      have hb2 : b2 < 256 := hbytes b2 (by simp)
      refine ⟨[b0 / 8, b0 % 8 * 4 + b1 / 64, b1 / 2 % 32, b1 % 2 * 16 + b2 / 16,
        b2 % 16 * 2], 3, rfl, ?_, by simp, by simp, ?_⟩
      · intro v hv
        simp at hv
        rcases hv with rfl | rfl | rfl | rfl | rfl <;> omega
      · show b32Partial 3 _ = [b0, b1, b2]
        unfold b32Partial word5
        simp only [List.foldl]
        norm_num
        refine ⟨by omega, by omega, by omega⟩
    | [b0, b1, b2, b3] =>
      have hb0 : b0 < 256 := hbytes b0 (by simp)
      have hb1 : b1 < 256 := hbytes b1 (by simp)
      have hb2 : b2 < 256 := hbytes b2 (by simp)
      have hb3 : b3 < 256 := hbytes b3 (by simp)
      refine ⟨[b0 / 8, b0 % 8 * 4 + b1 / 64, b1 / 2 % 32, b1 % 2 * 16 + b2 / 16,
        b2 % 16 * 2 + b3 / 128, b3 / 4 % 32, b3 % 4 * 8], 1, rfl, ?_, by simp,
        by simp, ?_⟩
      · intro v hv
        simp at hv
        rcases hv with rfl | rfl | rfl | rfl | rfl | rfl | rfl <;> omega
      · show b32Partial 1 _ = [b0, b1, b2, b3]
        unfold b32Partial word5
        simp only [List.foldl]
        norm_num
        refine ⟨by omega, by omega, by omega, by omega⟩
    | b0 :: b1 :: b2 :: b3 :: b4 :: rest =>
      have hb0 : b0 < 256 := hbytes b0 (by simp)
      have hb1 : b1 < 256 := hbytes b1 (by simp)
      have hb2 : b2 < 256 := hbytes b2 (by simp)
      have hb3 : b3 < 256 := hbytes b3 (by simp)
      have hb4 : b4 < 256 := hbytes b4 (by simp)
      obtain ⟨vs', k', henc, hv', hmod, hkval, hdec⟩ :=
        ih rest (by simp only [List.length_cons] at hlen; omega)
          fun x hx => hbytes x (by simp [hx])
      refine ⟨[b0 / 8, b0 % 8 * 4 + b1 / 64, b1 / 2 % 32, b1 % 2 * 16 + b2 / 16,
        b2 % 16 * 2 + b3 / 128, b3 / 4 % 32, b3 % 4 * 8 + b4 / 32, b4 % 32] ++ vs',
        k', ?_, ?_, ?_, hkval, ?_⟩
      · show b32Char (b0 / 8) :: b32Char (b0 % 8 * 4 + b1 / 64) ::
          b32Char (b1 / 2 % 32) :: b32Char (b1 % 2 * 16 + b2 / 16) ::
          b32Char (b2 % 16 * 2 + b3 / 128) :: b32Char (b3 / 4 % 32) ::
          b32Char (b3 % 4 * 8 + b4 / 32) :: b32Char (b4 % 32) ::
          b32EncodeBytes rest = _
        rw [henc]
        simp
      · intro v hv
        simp at hv
        rcases hv with rfl | rfl | rfl | rfl | rfl | rfl | rfl | rfl | hv
        · omega
        · omega
        · omega
        · omega
        · omega
        · omega
        · omega
        · omega
        · exact hv' v hv
      · simp only [List.length_append, List.length_cons, List.length_nil]
        omega
      · show b32DecodeVals k' (_ :: _ :: _ :: _ :: _ :: _ :: _ :: _ :: vs') = _
        rw [b32DecodeVals]
        rw [hdec]
        unfold word5
        norm_num
        refine ⟨by omega, by omega, by omega, by omega, by omega⟩

/-- `base64.b32decode` inverts `base64.b32encode`. -/
theorem b32decodePy_encodeBytes {bs : List Nat} (h : IsBytes bs) :
    b32decodePy (b32EncodeBytes bs) = .ok bs := by
  obtain ⟨vs, k, henc, hv, hmod, hkval, hdec⟩ :=
    b32Encode_structure bs.length bs le_rfl h
  have hchars : ∀ c ∈ vs.map b32Char, c ≠ 61 := by
    intro c hc
    obtain ⟨v, hvmem, rfl⟩ := List.mem_map.mp hc
    exact b32Char_ne_eq v (hv v hvmem)
  have hascii : (b32EncodeBytes bs).all (· < 128) = true := by
    rw [henc, List.all_eq_true]
    intro c hc
    rcases List.mem_append.mp hc with hc | hc
    · obtain ⟨v, hvmem, rfl⟩ := List.mem_map.mp hc
      simpa using b32Char_ascii v (hv v hvmem)
    · have := List.eq_of_mem_replicate hc
      simp [this]
  have hlen : (b32EncodeBytes bs).length = vs.length + k := by
    rw [henc]; simp
  unfold b32decodePy
  rw [if_neg (by simp [hascii]), if_neg (by rw [hlen]; omega)]
  simp only [henc, rstrip61_append hchars, mapM_b32Val hv]
  rw [if_pos (by
    have : (vs.map b32Char ++ List.replicate k 61).length -
        (vs.map b32Char).length = k := by simp
    rw [this]
    exact hkval)]
  have hk : (vs.map b32Char ++ List.replicate k 61).length -
      (vs.map b32Char).length = k := by simp
  rw [hk, hdec]

/-! ## The `ascii85` codec (`base64.a85encode` / `base64.a85decode`) -/

/-- The four big-endian bytes of a 32-bit word (`acc.to_bytes(4, 'big')`). -/
def word4 (w : Nat) : List Nat :=
  [w / 16777216 % 256, w / 65536 % 256, w / 256 % 256, w % 256]

/-- `base64.a85encode` over a byte sequence (default keyword arguments, as
called by `TextEncoder.ascii85_encode`): 4-byte groups become `z` when the
32-bit word is zero and otherwise the five base-85 digits of the word,
offset by 33; a leftover of n bytes is zero-padded, encoded as a plain
group (a zero word is expanded, not folded to `z`) and truncated to n+1
characters. -/
def a85EncodeBytes : List Nat → PyStr
  | b0 :: b1 :: b2 :: b3 :: rest =>
    (if b0 * 16777216 + b1 * 65536 + b2 * 256 + b3 = 0 then [122]
     else
       [33 + (b0 * 16777216 + b1 * 65536 + b2 * 256 + b3) / 52200625,
        33 + (b0 * 16777216 + b1 * 65536 + b2 * 256 + b3) / 614125 % 85,
        33 + (b0 * 16777216 + b1 * 65536 + b2 * 256 + b3) / 7225 % 85,
        33 + (b0 * 16777216 + b1 * 65536 + b2 * 256 + b3) / 85 % 85,
        33 + (b0 * 16777216 + b1 * 65536 + b2 * 256 + b3) % 85]) ++
    a85EncodeBytes rest
  | [] => []
  | [b0] =>
    [33 + b0 * 16777216 / 52200625, 33 + b0 * 16777216 / 614125 % 85]
  | [b0, b1] =>
    [33 + (b0 * 16777216 + b1 * 65536) / 52200625,
     33 + (b0 * 16777216 + b1 * 65536) / 614125 % 85,
     33 + (b0 * 16777216 + b1 * 65536) / 7225 % 85]
  | [b0, b1, b2] =>
    [33 + (b0 * 16777216 + b1 * 65536 + b2 * 256) / 52200625,
     33 + (b0 * 16777216 + b1 * 65536 + b2 * 256) / 614125 % 85,
     33 + (b0 * 16777216 + b1 * 65536 + b2 * 256) / 7225 % 85,
     33 + (b0 * 16777216 + b1 * 65536 + b2 * 256) / 85 % 85]

/-- The character loop of `base64.a85decode` (default keyword arguments):
`!`..`u` are digits, accumulated five at a time into a 32-bit word
(`ValueError` on overflow); `z` stands for a zero word and may not appear
inside a group; space, tab, LF, CR and VT are ignored; anything else is a
`ValueError`. Returns the decoded bytes together with the number of
characters left in the final incomplete group (the caller appends four
`u`s and trims the output by `4 - len(curr)`). -/
def a85Loop : PyStr → List Nat → Except PyErr (List Nat × Nat)
  | [], curr => .ok ([], curr.length)
  | x :: rest, curr =>
    if 33 ≤ x ∧ x ≤ 117 then
      if curr.length = 4 then
        if (curr ++ [x - 33]).foldl (fun a d => a * 85 + d) 0 < 4294967296 then
          (a85Loop rest []).map fun p =>
            (word4 ((curr ++ [x - 33]).foldl (fun a d => a * 85 + d) 0) ++ p.1,
             p.2)
        else .error .valueError
      else a85Loop rest (curr ++ [x - 33])
    else if x = 122 then
      if curr = [] then
        (a85Loop rest []).map fun p => ([0, 0, 0, 0] ++ p.1, p.2)
      else .error .valueError
    else if x = 32 ∨ x = 9 ∨ x = 10 ∨ x = 13 ∨ x = 11 then a85Loop rest curr
    else .error .valueError

/-- `base64.a85decode(s)` for a `str` argument: the string must be ASCII
(`ValueError` otherwise); the loop runs over the input followed by four
`u` digits, and `4 - len(curr)` bytes are trimmed from the end. -/
def a85decodePy (s : PyStr) : Except PyErr (List Nat) :=
  if ¬s.all (· < 128) then .error .valueError
  else
    match a85Loop (s ++ [117, 117, 117, 117]) [] with
    | .error e => .error e
    | .ok (bs, cl) => .ok (bs.take (bs.length - (4 - cl)))

theorem a85Loop_digit {x : Nat} (hx : 33 ≤ x ∧ x ≤ 117) (rest : PyStr)
    (curr : List Nat) (hlen : curr.length ≠ 4) :
    a85Loop (x :: rest) curr = a85Loop rest (curr ++ [x - 33]) := by
  rw [a85Loop, if_pos hx, if_neg hlen]

theorem a85Loop_digit5 {x : Nat} (hx : 33 ≤ x ∧ x ≤ 117) (rest : PyStr)
    (curr : List Nat) (hlen : curr.length = 4)
    (hacc : (curr ++ [x - 33]).foldl (fun a d => a * 85 + d) 0 < 4294967296) :
    a85Loop (x :: rest) curr =
      (a85Loop rest []).map fun p =>
        (word4 ((curr ++ [x - 33]).foldl (fun a d => a * 85 + d) 0) ++ p.1,
         p.2) := by
  rw [a85Loop, if_pos hx, if_pos hlen, if_pos hacc]

theorem a85Loop_z (rest : PyStr) :
    a85Loop (122 :: rest) [] =
      (a85Loop rest []).map fun p => ([0, 0, 0, 0] ++ p.1, p.2) := by
  rw [a85Loop, if_neg (by omega), if_pos rfl, if_pos rfl]


theorem a85Loop_runDigits :
    ∀ (ds : List Nat) (rest : PyStr) (curr : List Nat),
      (∀ d ∈ ds, d ≤ 84) → curr.length + ds.length ≤ 4 →
      a85Loop (ds.map (fun d => 33 + d) ++ rest) curr =
        a85Loop rest (curr ++ ds) := by
  intro ds
  induction ds with
  | nil =>
    intro rest curr _ _
    simp
  | cons d ds ih =>
    intro rest curr hle hlen
    simp only [List.map_cons, List.cons_append]
    rw [a85Loop_digit ⟨by omega, by have := hle d (by simp); omega⟩ _ _
      (by simp only [List.length_cons] at hlen; omega)]
    rw [Nat.add_sub_cancel_left]
    rw [ih _ _ (fun x hx => hle x (by simp [hx]))
      (by simp only [List.length_append, List.length_cons, List.length_nil] at hlen ⊢
          omega)]
    rw [List.append_assoc]
    rfl

theorem a85Loop_group {d0 d1 d2 d3 d4 : Nat} (h0 : d0 ≤ 84) (h1 : d1 ≤ 84)
    (h2 : d2 ≤ 84) (h3 : d3 ≤ 84) (h4 : d4 ≤ 84) {w : Nat}
    (hw : w < 4294967296)
    (hacc : (((d0 * 85 + d1) * 85 + d2) * 85 + d3) * 85 + d4 = w)
    (rest : PyStr) :
    a85Loop ((33 + d0) :: (33 + d1) :: (33 + d2) :: (33 + d3) :: (33 + d4) :: rest)
        [] =
      (a85Loop rest []).map fun p => (word4 w ++ p.1, p.2) := by
  have hrun := a85Loop_runDigits [d0, d1, d2, d3] ((33 + d4) :: rest) []
    (by intro x hx; simp at hx; rcases hx with rfl | rfl | rfl | rfl <;> omega)
    (by simp)
  rw [show ((33 + d0) :: (33 + d1) :: (33 + d2) :: (33 + d3) :: (33 + d4) :: rest :
      PyStr) =
    [d0, d1, d2, d3].map (fun d => 33 + d) ++ ((33 + d4) :: rest) from rfl, hrun]
  have hfold : (([] ++ [d0, d1, d2, d3] : List Nat) ++ [33 + d4 - 33]).foldl
      (fun a d => a * 85 + d) 0 = w := by
    simp only [List.nil_append, List.cons_append, List.foldl_cons,
      List.foldl_nil, Nat.add_sub_cancel_left]
    omega
  rw [@a85Loop_digit5 (33 + d4) ⟨by omega, by omega⟩ rest ([] ++ [d0, d1, d2, d3])
    (by simp) (by rw [hfold]; exact hw)]
  rw [hfold]

theorem a85Loop_encode :
    ∀ n bs, List.length bs ≤ n → IsBytes bs →
      ∃ extra cl,
        a85Loop (a85EncodeBytes bs ++ [117, 117, 117, 117]) [] =
          .ok (bs ++ extra, cl) ∧ extra.length + cl = 4 := by
  intro n
  induction n with
  | zero =>
    intro bs hlen _
    have : bs = [] := List.eq_nil_of_length_eq_zero (Nat.le_zero.mp hlen)
    subst this
    exact ⟨[], 4, rfl, by simp⟩
  | succ n ih =>
    intro bs hlen hbytes
    match bs with
    | [] => exact ⟨[], 4, rfl, by simp⟩
    | [b0] =>
      have hb0 : b0 < 256 := hbytes b0 (by simp)
      have hL0 : b0 * 16777216 / 614125 / 85 = b0 * 16777216 / 52200625 := by
        rw [Nat.div_div_eq_div_mul]
      have hacc : (((b0 * 16777216 / 52200625 * 85 +
          b0 * 16777216 / 614125 % 85) * 85 + 84) * 85 + 84) * 85 + 84 =
          614125 * (b0 * 16777216 / 614125) + 614124 := by omega
      have hwlt : 614125 * (b0 * 16777216 / 614125) + 614124 < 4294967296 := by
        omega
      have k0 : (614125 * (b0 * 16777216 / 614125) + 614124) / 16777216 %
          256 = b0 := by
        have hdiv : (614125 * (b0 * 16777216 / 614125) + 614124) / 16777216 = b0 :=
          Nat.div_eq_of_lt_le (by omega) (by omega)
        rw [hdiv]
        omega
      refine ⟨[(614125 * (b0 * 16777216 / 614125) + 614124) / 65536 % 256, (614125 * (b0 * 16777216 / 614125) + 614124) / 256 % 256,
        (614125 * (b0 * 16777216 / 614125) + 614124) % 256], 1, ?_, ?_⟩
      · rw [show a85EncodeBytes [b0] ++ [117, 117, 117, 117] =
          (33 + b0 * 16777216 / 52200625) :: (33 + b0 * 16777216 / 614125 % 85) ::
          (33 + 84) :: (33 + 84) :: (33 + 84) :: [117] from rfl]
        rw [a85Loop_group (by omega) (by omega) (by omega) (by omega) (by omega)
          hwlt hacc [117]]
        rw [show a85Loop [117] [] = .ok ([], 1) from rfl]
        unfold word4
        rw [k0]
        rfl
      · simp
    | [b0, b1] =>
      have hb0 : b0 < 256 := hbytes b0 (by simp)
      have hb1 : b1 < 256 := hbytes b1 (by simp)
      have hL0 : (b0 * 16777216 + b1 * 65536) / 614125 / 85 =
          (b0 * 16777216 + b1 * 65536) / 52200625 := by
        rw [Nat.div_div_eq_div_mul]
      have hL1 : (b0 * 16777216 + b1 * 65536) / 7225 / 85 =
          (b0 * 16777216 + b1 * 65536) / 614125 := by
        rw [Nat.div_div_eq_div_mul]
      have hacc : ((((b0 * 16777216 + b1 * 65536) / 52200625 * 85 +
          (b0 * 16777216 + b1 * 65536) / 614125 % 85) * 85 +
          (b0 * 16777216 + b1 * 65536) / 7225 % 85) * 85 + 84) * 85 + 84 =
          7225 * ((b0 * 16777216 + b1 * 65536) / 7225) + 7224 := by omega
      have hwlt : 7225 * ((b0 * 16777216 + b1 * 65536) / 7225) + 7224 <
          4294967296 := by omega
      have k0 : (7225 * ((b0 * 16777216 + b1 * 65536) / 7225) + 7224) /
          16777216 % 256 = b0 := by
        have hdiv : (7225 * ((b0 * 16777216 + b1 * 65536) / 7225) + 7224) /
            16777216 = b0 :=
          Nat.div_eq_of_lt_le (by omega) (by omega)
        rw [hdiv]
        omega
      have k1 : (7225 * ((b0 * 16777216 + b1 * 65536) / 7225) + 7224) /
          65536 % 256 = b1 := by
        have hdiv : (7225 * ((b0 * 16777216 + b1 * 65536) / 7225) + 7224) /
            65536 = b0 * 256 + b1 :=
          Nat.div_eq_of_lt_le (by omega) (by omega)
        rw [hdiv]
        omega
      refine ⟨[(7225 * ((b0 * 16777216 + b1 * 65536) / 7225) + 7224) / 256 % 256, (7225 * ((b0 * 16777216 + b1 * 65536) / 7225) + 7224) % 256], 2, ?_, ?_⟩
      · rw [show a85EncodeBytes [b0, b1] ++ [117, 117, 117, 117] =
          (33 + (b0 * 16777216 + b1 * 65536) / 52200625) ::
          (33 + (b0 * 16777216 + b1 * 65536) / 614125 % 85) ::
          (33 + (b0 * 16777216 + b1 * 65536) / 7225 % 85) ::
          (33 + 84) :: (33 + 84) :: [117, 117] from rfl]
        rw [a85Loop_group (by omega) (by omega) (by omega) (by omega) (by omega)
          hwlt hacc [117, 117]]
        rw [show a85Loop [117, 117] [] = .ok ([], 2) from rfl]
        unfold word4
        rw [k0, k1]
        rfl
      · simp
    | [b0, b1, b2] =>
      have hb0 : b0 < 256 := hbytes b0 (by simp)
      have hb1 : b1 < 256 := hbytes b1 (by simp)
      have hb2 : b2 < 256 := hbytes b2 (by simp)
      have hL0 : (b0 * 16777216 + b1 * 65536 + b2 * 256) / 614125 / 85 =
          (b0 * 16777216 + b1 * 65536 + b2 * 256) / 52200625 := by
        rw [Nat.div_div_eq_div_mul]
      have hL1 : (b0 * 16777216 + b1 * 65536 + b2 * 256) / 7225 / 85 =
          (b0 * 16777216 + b1 * 65536 + b2 * 256) / 614125 := by
        rw [Nat.div_div_eq_div_mul]
      have hL2 : (b0 * 16777216 + b1 * 65536 + b2 * 256) / 85 / 85 =
          (b0 * 16777216 + b1 * 65536 + b2 * 256) / 7225 := by
        rw [Nat.div_div_eq_div_mul]
      have hacc : ((((b0 * 16777216 + b1 * 65536 + b2 * 256) / 52200625 * 85 +
          (b0 * 16777216 + b1 * 65536 + b2 * 256) / 614125 % 85) * 85 +
          (b0 * 16777216 + b1 * 65536 + b2 * 256) / 7225 % 85) * 85 +
          (b0 * 16777216 + b1 * 65536 + b2 * 256) / 85 % 85) * 85 + 84 =
          85 * ((b0 * 16777216 + b1 * 65536 + b2 * 256) / 85) + 84 := by omega
      have hwlt : 85 * ((b0 * 16777216 + b1 * 65536 + b2 * 256) / 85) + 84 <
          4294967296 := by omega
      have k0 : (85 * ((b0 * 16777216 + b1 * 65536 + b2 * 256) / 85) + 84) /
          16777216 % 256 = b0 := by
        have hdiv : (85 * ((b0 * 16777216 + b1 * 65536 + b2 * 256) / 85) + 84) /
            16777216 = b0 :=
          Nat.div_eq_of_lt_le (by omega) (by omega)
        rw [hdiv]
        omega
      have k1 : (85 * ((b0 * 16777216 + b1 * 65536 + b2 * 256) / 85) + 84) /
          65536 % 256 = b1 := by
        have hdiv : (85 * ((b0 * 16777216 + b1 * 65536 + b2 * 256) / 85) + 84) /
            65536 = b0 * 256 + b1 :=
          Nat.div_eq_of_lt_le (by omega) (by omega)
        rw [hdiv]
        omega
      have k2 : (85 * ((b0 * 16777216 + b1 * 65536 + b2 * 256) / 85) + 84) /
          256 % 256 = b2 := by
        have hdiv : (85 * ((b0 * 16777216 + b1 * 65536 + b2 * 256) / 85) + 84) /
            256 = b0 * 65536 + b1 * 256 + b2 :=
          Nat.div_eq_of_lt_le (by omega) (by omega)
        rw [hdiv]
        omega
      refine ⟨[(85 * ((b0 * 16777216 + b1 * 65536 + b2 * 256) / 85) + 84) % 256], 3, ?_, ?_⟩
      · rw [show a85EncodeBytes [b0, b1, b2] ++ [117, 117, 117, 117] =
          (33 + (b0 * 16777216 + b1 * 65536 + b2 * 256) / 52200625) ::
          (33 + (b0 * 16777216 + b1 * 65536 + b2 * 256) / 614125 % 85) ::
          (33 + (b0 * 16777216 + b1 * 65536 + b2 * 256) / 7225 % 85) ::
          (33 + (b0 * 16777216 + b1 * 65536 + b2 * 256) / 85 % 85) ::
          (33 + 84) :: [117, 117, 117] from rfl]
        rw [a85Loop_group (by omega) (by omega) (by omega) (by omega) (by omega)
          hwlt hacc [117, 117, 117]]
        rw [show a85Loop [117, 117, 117] [] = .ok ([], 3) from rfl]
        unfold word4
        rw [k0, k1, k2]
        rfl
      · simp
    | b0 :: b1 :: b2 :: b3 :: rest =>
      have hb0 : b0 < 256 := hbytes b0 (by simp)
      have hb1 : b1 < 256 := hbytes b1 (by simp)
      have hb2 : b2 < 256 := hbytes b2 (by simp)
      have hb3 : b3 < 256 := hbytes b3 (by simp)
      obtain ⟨extra, cl, hloop, hsum⟩ :=
        ih rest (by simp only [List.length_cons] at hlen; omega)
          fun x hx => hbytes x (by simp [hx])
      refine ⟨extra, cl, ?_, hsum⟩
      rw [a85EncodeBytes]
      by_cases hw : b0 * 16777216 + b1 * 65536 + b2 * 256 + b3 = 0
      · rw [if_pos hw]
        simp only [List.cons_append, List.nil_append, List.append_assoc]
        rw [a85Loop_z, hloop]
        have hz : b0 = 0 ∧ b1 = 0 ∧ b2 = 0 ∧ b3 = 0 := by omega
        obtain ⟨rfl, rfl, rfl, rfl⟩ := hz
        rfl
      · rw [if_neg hw]
        have hL0 : (b0 * 16777216 + b1 * 65536 + b2 * 256 + b3) / 614125 / 85 =
            (b0 * 16777216 + b1 * 65536 + b2 * 256 + b3) / 52200625 := by
          rw [Nat.div_div_eq_div_mul]
        have hL1 : (b0 * 16777216 + b1 * 65536 + b2 * 256 + b3) / 7225 / 85 =
            (b0 * 16777216 + b1 * 65536 + b2 * 256 + b3) / 614125 := by
          rw [Nat.div_div_eq_div_mul]
        have hL2 : (b0 * 16777216 + b1 * 65536 + b2 * 256 + b3) / 85 / 85 =
            (b0 * 16777216 + b1 * 65536 + b2 * 256 + b3) / 7225 := by
          rw [Nat.div_div_eq_div_mul]
        have hacc : ((((b0 * 16777216 + b1 * 65536 + b2 * 256 + b3) / 52200625 * 85 +
            (b0 * 16777216 + b1 * 65536 + b2 * 256 + b3) / 614125 % 85) * 85 +
            (b0 * 16777216 + b1 * 65536 + b2 * 256 + b3) / 7225 % 85) * 85 +
            (b0 * 16777216 + b1 * 65536 + b2 * 256 + b3) / 85 % 85) * 85 +
            (b0 * 16777216 + b1 * 65536 + b2 * 256 + b3) % 85 =
            b0 * 16777216 + b1 * 65536 + b2 * 256 + b3 := by omega
        have hwlt : b0 * 16777216 + b1 * 65536 + b2 * 256 + b3 < 4294967296 := by
          omega
        have k0 : (b0 * 16777216 + b1 * 65536 + b2 * 256 + b3) / 16777216 % 256 = b0 := by
          have hdiv : (b0 * 16777216 + b1 * 65536 + b2 * 256 + b3) / 16777216 = b0 :=
            Nat.div_eq_of_lt_le (by omega) (by omega)
          rw [hdiv]
          omega
        have k1 : (b0 * 16777216 + b1 * 65536 + b2 * 256 + b3) / 65536 % 256 = b1 := by
          have hdiv : (b0 * 16777216 + b1 * 65536 + b2 * 256 + b3) / 65536 = b0 * 256 + b1 :=
            Nat.div_eq_of_lt_le (by omega) (by omega)
          rw [hdiv]
          omega
        have k2 : (b0 * 16777216 + b1 * 65536 + b2 * 256 + b3) / 256 % 256 = b2 := by
          have hdiv : (b0 * 16777216 + b1 * 65536 + b2 * 256 + b3) / 256 = b0 * 65536 + b1 * 256 + b2 :=
            Nat.div_eq_of_lt_le (by omega) (by omega)
          rw [hdiv]
          omega
        have k3 : (b0 * 16777216 + b1 * 65536 + b2 * 256 + b3) % 256 = b3 := by omega
        simp only [List.cons_append, List.nil_append, List.append_assoc]
        rw [a85Loop_group (by omega) (by omega) (by omega) (by omega) (by omega)
          hwlt hacc (a85EncodeBytes rest ++ [117, 117, 117, 117]), hloop]
        unfold word4
        rw [k0, k1, k2, k3]
        rfl

theorem a85EncodeBytes_ascii :
    ∀ n bs, List.length bs ≤ n → IsBytes bs →
      ∀ c ∈ a85EncodeBytes bs, c < 128 := by
  intro n
  induction n with
  | zero =>
    intro bs hlen _ c hc
    have : bs = [] := List.eq_nil_of_length_eq_zero (Nat.le_zero.mp hlen)
    subst this
    simp [a85EncodeBytes] at hc
  | succ n ih =>
    intro bs hlen hbytes c hc
    match bs with
    | [] => simp [a85EncodeBytes] at hc
    | [b0] =>
      have hb0 : b0 < 256 := hbytes b0 (by simp)
      rw [show a85EncodeBytes [b0] =
        [33 + b0 * 16777216 / 52200625, 33 + b0 * 16777216 / 614125 % 85]
        from rfl] at hc
      simp at hc
      rcases hc with rfl | rfl <;> omega
    | [b0, b1] =>
      have hb0 : b0 < 256 := hbytes b0 (by simp)
      have hb1 : b1 < 256 := hbytes b1 (by simp)
      rw [show a85EncodeBytes [b0, b1] =
        [33 + (b0 * 16777216 + b1 * 65536) / 52200625,
         33 + (b0 * 16777216 + b1 * 65536) / 614125 % 85,
         33 + (b0 * 16777216 + b1 * 65536) / 7225 % 85] from rfl] at hc
      simp at hc
      rcases hc with rfl | rfl | rfl <;> omega
    | [b0, b1, b2] =>
      have hb0 : b0 < 256 := hbytes b0 (by simp)
      have hb1 : b1 < 256 := hbytes b1 (by simp)
      have hb2 : b2 < 256 := hbytes b2 (by simp)
      rw [show a85EncodeBytes [b0, b1, b2] =
        [33 + (b0 * 16777216 + b1 * 65536 + b2 * 256) / 52200625,
         33 + (b0 * 16777216 + b1 * 65536 + b2 * 256) / 614125 % 85,
         33 + (b0 * 16777216 + b1 * 65536 + b2 * 256) / 7225 % 85,
         33 + (b0 * 16777216 + b1 * 65536 + b2 * 256) / 85 % 85] from rfl] at hc
      simp at hc
      rcases hc with rfl | rfl | rfl | rfl <;> omega
    | b0 :: b1 :: b2 :: b3 :: rest =>
      have hb0 : b0 < 256 := hbytes b0 (by simp)
      have hb1 : b1 < 256 := hbytes b1 (by simp)
      have hb2 : b2 < 256 := hbytes b2 (by simp)
      have hb3 : b3 < 256 := hbytes b3 (by simp)
      rw [a85EncodeBytes] at hc
      rcases List.mem_append.mp hc with hc | hc
      · by_cases hw : b0 * 16777216 + b1 * 65536 + b2 * 256 + b3 = 0
        · rw [if_pos hw] at hc
          simp at hc
          omega
        · rw [if_neg hw] at hc
          simp at hc
          rcases hc with rfl | rfl | rfl | rfl | rfl <;> omega
      · exact ih rest (by simp only [List.length_cons] at hlen; omega)
          (fun x hx => hbytes x (by simp [hx])) c hc

/-- `base64.a85decode` inverts `base64.a85encode`. -/
theorem a85decodePy_encodeBytes {bs : List Nat} (h : IsBytes bs) :
    a85decodePy (a85EncodeBytes bs) = .ok bs := by
  obtain ⟨extra, cl, hloop, hsum⟩ := a85Loop_encode bs.length bs le_rfl h
  unfold a85decodePy
  rw [if_neg (by
    simp only [not_not, List.all_eq_true, decide_eq_true_eq]
    exact a85EncodeBytes_ascii bs.length bs le_rfl h)]
  rw [hloop]
  have hlen : (bs ++ extra).length - (4 - cl) = bs.length := by
    simp only [List.length_append]
    omega
  show Except.ok ((bs ++ extra).take ((bs ++ extra).length - (4 - cl))) = _
  rw [hlen, List.take_left]

/-! ## The `url` codec (`urllib.parse.quote` / `urllib.parse.unquote`) -/

/-- Characters never quoted by `urllib.parse.quote` with its default
`safe='/'`: ASCII letters, digits, `_.-~` and `/`. -/
def isUrlSafe (b : Nat) : Bool :=
  (48 ≤ b && b ≤ 57) || (65 ≤ b && b ≤ 90) || (97 ≤ b && b ≤ 122) ||
  b == 45 || b == 46 || b == 95 || b == 126 || b == 47

/-- Uppercase hex digit character, as used in `%XX` escapes. -/
def hexDigitUpper (v : Nat) : Nat := if v < 10 then 48 + v else 55 + v

/-- `urllib.parse.quote_from_bytes`: safe bytes pass through, every other
byte becomes `%XX` with uppercase hex. -/
def quoteBytes (bs : List Nat) : PyStr :=
  bs.flatMap fun b =>
    if isUrlSafe b then [b] else [37, hexDigitUpper (b / 16), hexDigitUpper (b % 16)]

/-- `urllib.parse.quote(text)` (defaults: `safe='/'`, UTF-8, strict):
percent-quote the UTF-8 bytes of the text. -/
def url_encode (s : PyStr) : Except PyErr PyStr := (utf8Encode s).map quoteBytes

/-- The `unquote_to_bytes` scan of an ASCII run: `%` followed by two hex
digits becomes that byte; any other `%` stays literal; all other
characters stay as their (ASCII) byte. -/
def percentDecodeAscii : PyStr → List Nat
  | [] => []
  | c :: rest =>
    if c = 37 then
      match rest with
      | h1 :: h2 :: rest' =>
        match hexVal h1, hexVal h2 with
        | some a, some b => (a * 16 + b) :: percentDecodeAscii rest'
        | _, _ => 37 :: percentDecodeAscii (h1 :: h2 :: rest')
      | [h1] => 37 :: percentDecodeAscii [h1]
      | [] => [37]
    else c :: percentDecodeAscii rest

/-- Fuel loop for `urllib.parse.unquote` (defaults `utf-8`/`replace`):
maximal ASCII runs are percent-decoded to bytes and UTF-8-decoded with
replacement; non-ASCII characters pass through unchanged. -/
def pyUnquoteLoop : Nat → PyStr → PyStr
  | _, [] => []
  | 0, _ :: _ => []
  | fuel + 1, c :: rest =>
    if c < 128 then
      utf8DecodeReplace (percentDecodeAscii (c :: rest.takeWhile (· < 128))) ++
        pyUnquoteLoop fuel (rest.dropWhile (· < 128))
    else c :: pyUnquoteLoop fuel rest

/-- `urllib.parse.unquote(string)` with default arguments; it never
raises. -/
def pyUnquote (s : PyStr) : PyStr := pyUnquoteLoop s.length s

/-- `TextEncoder.url_decode`: `urllib.parse.unquote(encoded)`. -/
def url_decode (s : PyStr) : Except PyErr PyStr := .ok (pyUnquote s)

theorem hexVal_hexDigitUpper : ∀ v, v < 16 → hexVal (hexDigitUpper v) = some v := by
  decide

theorem hexDigitUpper_ne_percent : ∀ v, v < 16 → ¬(hexDigitUpper v = 37) := by
  decide

/-- Percent-decoding inverts percent-quoting on bytes. -/
theorem percentDecodeAscii_quoteBytes {bs : List Nat} (h : IsBytes bs) :
    percentDecodeAscii (quoteBytes bs) = bs := by
  induction bs with
  | nil => rfl
  | cons b bs ih =>
    have hb : b < 256 := h b (by simp)
    have ih' := ih fun x hx => h x (by simp [hx])
    rw [show quoteBytes (b :: bs) =
      (if isUrlSafe b then [b]
       else [37, hexDigitUpper (b / 16), hexDigitUpper (b % 16)]) ++
        quoteBytes bs from rfl]
    by_cases hsafe : isUrlSafe b = true
    · rw [if_pos hsafe]
      have hb37 : ¬(b = 37) := by
        intro hcon
        subst hcon
        simp [isUrlSafe] at hsafe
      simp only [List.cons_append, List.nil_append]
      rw [percentDecodeAscii.eq_def]
      simp only [if_neg hb37]
      rw [ih']
    · rw [if_neg hsafe]
      simp only [List.cons_append, List.nil_append]
      rw [percentDecodeAscii.eq_def]
      simp only [if_pos rfl, hexVal_hexDigitUpper (b / 16) (by omega),
        hexVal_hexDigitUpper (b % 16) (by omega)]
      rw [ih']
      have : b / 16 * 16 + b % 16 = b := by omega
      rw [this]
      simp

/-- On a pure-ASCII string, `unquote` is percent-decoding followed by
replace-mode UTF-8 decoding. -/
theorem pyUnquote_ascii {s : PyStr} (h : ∀ c ∈ s, c < 128) :
    pyUnquote s = utf8DecodeReplace (percentDecodeAscii s) := by
  cases s with
  | nil => rfl
  | cons c rest =>
    have hc : c < 128 := h c (by simp)
    have htake : rest.takeWhile (fun d => decide (d < 128)) = rest :=
      takeWhile_eq_self_of fun a ha => by simpa using h a (by simp [ha])
    have hdrop : rest.dropWhile (fun d => decide (d < 128)) = [] :=
      dropWhile_eq_nil_of fun a ha => by simpa using h a (by simp [ha])
    show pyUnquoteLoop (rest.length + 1) (c :: rest) = _
    rw [pyUnquoteLoop, if_pos hc, htake, hdrop]
    rw [show pyUnquoteLoop rest.length [] = [] from by
      cases rest <;> rfl]
    simp

/-- `quote` output is pure ASCII. -/
theorem quoteBytes_ascii {bs : List Nat} (h : IsBytes bs) :
    ∀ c ∈ quoteBytes bs, c < 128 := by
  intro c hc
  obtain ⟨b, hb, hcb⟩ := List.mem_flatMap.mp hc
  have hb' : b < 256 := h b hb
  by_cases hsafe : isUrlSafe b = true
  · rw [if_pos hsafe] at hcb
    simp at hcb
    subst hcb
    simp [isUrlSafe] at hsafe
    omega
  · rw [if_neg hsafe] at hcb
    simp at hcb
    rcases hcb with rfl | rfl | rfl
    · omega
    · unfold hexDigitUpper
      split_ifs <;> omega
    · unfold hexDigitUpper
      split_ifs <;> omega

/-! ## The `html` codec (`html.escape` / `html.unescape`) -/

/-- `html.escape(text)` with its default `quote=True` performs five
sequential `str.replace` calls (`&`→`&amp;` first, then `<`→`&lt;`,
`>`→`&gt;`, `"`→`&quot;`, `'`→`&#x27;`). Because each target is a single
character, `&` is replaced first, and no replacement string contains a
character replaced later, this equals the per-character expansion below. -/
def htmlEscapeChar (c : Nat) : PyStr :=
  if c = 38 then [38, 97, 109, 112, 59]
  else if c = 60 then [38, 108, 116, 59]
  else if c = 62 then [38, 103, 116, 59]
  else if c = 34 then [38, 113, 117, 111, 116, 59]
  else if c = 39 then [38, 35, 120, 50, 55, 59]
  else [c]

/-- `html.escape` over a whole string. -/
def html_escape (s : PyStr) : PyStr := s.flatMap htmlEscapeChar

/-- The fragment of the `html.entities.html5` named-reference table
needed here: the references `html.escape` can emit, in their forms with
and without the trailing semicolon (as in the CPython table). References
outside this fragment are treated as unknown; no input in the theorems
below uses any other name. -/
def html5Lookup (s : PyStr) : Option PyStr :=
  if s = [97, 109, 112, 59] then some [38]
  else if s = [97, 109, 112] then some [38]
  else if s = [108, 116, 59] then some [60]
  else if s = [108, 116] then some [60]
  else if s = [103, 116, 59] then some [62]
  else if s = [103, 116] then some [62]
  else if s = [113, 117, 111, 116, 59] then some [34]
  else if s = [113, 117, 111, 116] then some [34]
  else none

/-- A character allowed in a named reference by the `_charref` regex of
CPython `html`: anything except tab, LF, FF, space, `<`, `&`, `#`, `;`. -/
def isNameChar (c : Nat) : Bool :=
  !(c == 9 || c == 10 || c == 12 || c == 32 || c == 60 || c == 38 ||
    c == 35 || c == 59)

def isDecDigit (c : Nat) : Bool := 48 ≤ c && c ≤ 57

def isHexDigitChar (c : Nat) : Bool :=
  (48 ≤ c && c ≤ 57) || (97 ≤ c && c ≤ 102) || (65 ≤ c && c ≤ 70)

def decDigitsValue (ds : PyStr) : Nat :=
  ds.foldl (fun a c => a * 10 + (c - 48)) 0

def hexDigitsValue (ds : PyStr) : Nat :=
  ds.foldl (fun a c =>
    a * 16 + (if c ≤ 57 then c - 48 else if c ≤ 70 then c - 55 else c - 87)) 0

/-- CPython `html._invalid_charrefs`: the WHATWG overrides for numeric
character references (Windows-1252 mappings for 0x80–0x9F, plus NUL→U+FFFD
and CR→CR). -/
def invalidCharref (n : Nat) : Option PyStr :=
  if n = 0x00 then some [0xFFFD]
  else if n = 0x0D then some [0x0D]
  else if n = 0x80 then some [0x20AC]
  else if n = 0x81 then some [0x81]
  else if n = 0x82 then some [0x201A]
  else if n = 0x83 then some [0x0192]
  else if n = 0x84 then some [0x201E]
  else if n = 0x85 then some [0x2026]
  else if n = 0x86 then some [0x2020]
  else if n = 0x87 then some [0x2021]
  else if n = 0x88 then some [0x02C6]
  else if n = 0x89 then some [0x2030]
  else if n = 0x8A then some [0x0160]
  else if n = 0x8B then some [0x2039]
  else if n = 0x8C then some [0x0152]
  else if n = 0x8D then some [0x8D]
  else if n = 0x8E then some [0x017D]
  else if n = 0x8F then some [0x8F]
  else if n = 0x90 then some [0x90]
  else if n = 0x91 then some [0x2018]
  else if n = 0x92 then some [0x2019]
  else if n = 0x93 then some [0x201C]
  else if n = 0x94 then some [0x201D]
  else if n = 0x95 then some [0x2022]
  else if n = 0x96 then some [0x2013]
  else if n = 0x97 then some [0x2014]
  else if n = 0x98 then some [0x02DC]
  else if n = 0x99 then some [0x2122]
  else if n = 0x9A then some [0x0161]
  else if n = 0x9B then some [0x203A]
  else if n = 0x9C then some [0x0153]
  else if n = 0x9D then some [0x9D]
  else if n = 0x9E then some [0x017E]
  else if n = 0x9F then some [0x0178]
  else none

/-- CPython `html._invalid_codepoints`: control characters and
noncharacters whose numeric references produce the empty string. -/
def isInvalidCodepoint (n : Nat) : Bool :=
  (1 ≤ n && n ≤ 8) || n == 11 || (14 ≤ n && n ≤ 31) || (127 ≤ n && n ≤ 159) ||
  (0xFDD0 ≤ n && n ≤ 0xFDEF) || n % 0x10000 == 0xFFFE || n % 0x10000 == 0xFFFF

/-- `html._replace_charref` for a numeric reference of value `n`. -/
def numCharrefValue (n : Nat) : PyStr :=
  match invalidCharref n with
  | some r => r
  | none =>
    if (0xD800 ≤ n ∧ n ≤ 0xDFFF) ∨ 0x10FFFF < n then [0xFFFD]
    else if isInvalidCodepoint n then []
    else [n]

/-- The longest-known-prefix fallback of `html._replace_charref` for a
named reference without exact match: try prefixes of length `x`,
`x - 1`, ..., `2`; on a hit, emit its replacement followed by the
remaining matched characters. -/
def namedFallback (s : PyStr) : Nat → Option PyStr
  | 0 => none
  | 1 => none
  | x + 2 =>
    match html5Lookup (s.take (x + 2)) with
    | some r => some (r ++ s.drop (x + 2))
    | none => namedFallback s (x + 1)

/-- Parse one character reference right after a `&`, following the
`_charref` regex and `_replace_charref` of CPython `html`: returns the
replacement text and the number of characters consumed (after the `&`),
or `none` when the regex does not match at this position. -/
def parseCharref (s : PyStr) : Option (PyStr × Nat) :=
  match s with
  | [] => none
  | c :: rest =>
    if c = 35 then
      match rest with
      | [] => none
      | x :: rest2 =>
        if x = 120 ∨ x = 88 then
          let digits := rest2.takeWhile isHexDigitChar
          if digits = [] then none
          else
            let semi := if (rest2.drop digits.length).head? = some 59 then 1 else 0
            some (numCharrefValue (hexDigitsValue digits),
              2 + digits.length + semi)
        else
          let digits := rest.takeWhile isDecDigit
          if digits = [] then none
          else
            let semi := if (rest.drop digits.length).head? = some 59 then 1 else 0
            some (numCharrefValue (decDigitsValue digits),
              1 + digits.length + semi)
    else
      let run := (s.takeWhile isNameChar).take 32
      if run = [] then none
      else
        let semi := (s.drop run.length).head? = some 59
        let m := run ++ if semi then [59] else []
        match html5Lookup m with
        | some r => some (r, m.length)
        | none =>
          match namedFallback m (m.length - 1) with
          | some r => some (r, m.length)
          | none => some (38 :: m, m.length)

/-- Fuel loop of `html.unescape`: scan for `&`, try to parse a character
reference, emit its replacement (or the literal `&` when the regex does
not match) and continue after the consumed characters. -/
def htmlUnescapeLoop : Nat → PyStr → PyStr
  | _, [] => []
  | 0, _ :: _ => []
  | fuel + 1, c :: rest =>
    if c = 38 then
      match parseCharref rest with
      | some (repl, consumed) => repl ++ htmlUnescapeLoop fuel (rest.drop consumed)
      | none => 38 :: htmlUnescapeLoop fuel rest
    else c :: htmlUnescapeLoop fuel rest

/-- `html.unescape(s)`. -/
def htmlUnescape (s : PyStr) : PyStr := htmlUnescapeLoop s.length s

theorem parseCharref_amp (t : PyStr) :
    parseCharref (97 :: 109 :: 112 :: 59 :: t) = some ([38], 4) := by
  simp [parseCharref, List.takeWhile_cons, isNameChar, html5Lookup]

theorem parseCharref_lt (t : PyStr) :
    parseCharref (108 :: 116 :: 59 :: t) = some ([60], 3) := by
  simp [parseCharref, List.takeWhile_cons, isNameChar, html5Lookup]

theorem parseCharref_gt (t : PyStr) :
    parseCharref (103 :: 116 :: 59 :: t) = some ([62], 3) := by
  simp [parseCharref, List.takeWhile_cons, isNameChar, html5Lookup]

theorem parseCharref_quot (t : PyStr) :
    parseCharref (113 :: 117 :: 111 :: 116 :: 59 :: t) = some ([34], 5) := by
  simp [parseCharref, List.takeWhile_cons, isNameChar, html5Lookup]

theorem parseCharref_apos (t : PyStr) :
    parseCharref (35 :: 120 :: 50 :: 55 :: 59 :: t) = some ([39], 5) := by
  simp [parseCharref, List.takeWhile_cons, isHexDigitChar, hexDigitsValue,
    numCharrefValue, invalidCharref, isInvalidCodepoint]

theorem htmlEscapeChar_length (c : Nat) : 1 ≤ (htmlEscapeChar c).length := by
  unfold htmlEscapeChar
  split_ifs <;> simp

/-- `html.unescape` inverts `html.escape` (on any string). -/
theorem htmlUnescape_escape (s : PyStr) : htmlUnescape (html_escape s) = s := by
  suffices H : ∀ fuel s, (html_escape s).length ≤ fuel →
      htmlUnescapeLoop fuel (html_escape s) = s from H _ s le_rfl
  intro fuel
  induction fuel with
  | zero =>
    intro s hlen
    cases s with
    | nil => rfl
    | cons c cs =>
      exfalso
      have h1 := htmlEscapeChar_length c
      have : html_escape (c :: cs) = htmlEscapeChar c ++ html_escape cs := rfl
      rw [this] at hlen
      simp only [List.length_append] at hlen
      omega
  | succ fuel ih =>
    intro s hlen
    cases s with
    | nil => rfl
    | cons c cs =>
      have hstep : html_escape (c :: cs) = htmlEscapeChar c ++ html_escape cs := rfl
      have h1 := htmlEscapeChar_length c
      have hrest : (html_escape cs).length ≤ fuel := by
        rw [hstep] at hlen
        simp only [List.length_append] at hlen
        omega
      rw [hstep]
      by_cases h38 : c = 38
      · subst h38
        rw [show htmlEscapeChar 38 = [38, 97, 109, 112, 59] from rfl]
        simp only [List.cons_append, List.nil_append]
        rw [htmlUnescapeLoop, if_pos rfl]
        simp only [parseCharref_amp]
        rw [show (97 :: 109 :: 112 :: 59 :: html_escape cs).drop 4 =
          html_escape cs from rfl]
        rw [ih cs hrest]
        rfl
      · by_cases h60 : c = 60
        · subst h60
          rw [show htmlEscapeChar 60 = [38, 108, 116, 59] from rfl]
          simp only [List.cons_append, List.nil_append]
          rw [htmlUnescapeLoop, if_pos rfl]
          simp only [parseCharref_lt]
          rw [show (108 :: 116 :: 59 :: html_escape cs).drop 3 =
            html_escape cs from rfl]
          rw [ih cs hrest]
          rfl
        · by_cases h62 : c = 62
          · subst h62
            rw [show htmlEscapeChar 62 = [38, 103, 116, 59] from rfl]
            simp only [List.cons_append, List.nil_append]
            rw [htmlUnescapeLoop, if_pos rfl]
            simp only [parseCharref_gt]
            rw [show (103 :: 116 :: 59 :: html_escape cs).drop 3 =
              html_escape cs from rfl]
            rw [ih cs hrest]
            rfl
          · by_cases h34 : c = 34
            · subst h34
              rw [show htmlEscapeChar 34 = [38, 113, 117, 111, 116, 59] from rfl]
              simp only [List.cons_append, List.nil_append]
              rw [htmlUnescapeLoop, if_pos rfl]
              simp only [parseCharref_quot]
              rw [show (113 :: 117 :: 111 :: 116 :: 59 :: html_escape cs).drop 5 =
                html_escape cs from rfl]
              rw [ih cs hrest]
              rfl
            · by_cases h39 : c = 39
              · subst h39
                rw [show htmlEscapeChar 39 = [38, 35, 120, 50, 55, 59] from rfl]
                simp only [List.cons_append, List.nil_append]
                rw [htmlUnescapeLoop, if_pos rfl]
                simp only [parseCharref_apos]
                rw [show (35 :: 120 :: 50 :: 55 :: 59 :: html_escape cs).drop 5 =
                  html_escape cs from rfl]
                rw [ih cs hrest]
                rfl
              · rw [show htmlEscapeChar c = [c] from by
                  unfold htmlEscapeChar
                  rw [if_neg h38, if_neg h60, if_neg h62, if_neg h34, if_neg h39]]
                simp only [List.cons_append, List.nil_append]
                rw [htmlUnescapeLoop, if_neg h38]
                rw [ih cs hrest]

/-! ## Codec wrappers (the `TextEncoder` methods) and the registry -/

/-- `bytes.decode('utf-8')` as the final step of the byte-oriented
decoders: `UnicodeDecodeError` when the bytes are not valid UTF-8. -/
def bytesDecodeUtf8 (bs : List Nat) : Except PyErr PyStr :=
  match utf8Decode bs with
  | some t => .ok t
  | none => .error .unicodeDecodeError

/-- `TextEncoder.base64_encode`:
`base64.b64encode(text.encode('utf-8')).decode('ascii')`. -/
def base64_encode (s : PyStr) : Except PyErr PyStr :=
  (utf8Encode s).map b64EncodeBytes

/-- `TextEncoder.base64_decode`:
`base64.b64decode(encoded).decode('utf-8')`. -/
def base64_decode (s : PyStr) : Except PyErr PyStr :=
  match b64decodePy s with
  | .error e => .error e
  | .ok bs => bytesDecodeUtf8 bs

/-- `TextEncoder.base32_encode`:
`base64.b32encode(text.encode('utf-8')).decode('ascii')`. -/
def base32_encode (s : PyStr) : Except PyErr PyStr :=
  (utf8Encode s).map b32EncodeBytes

/-- `TextEncoder.base32_decode`:
`base64.b32decode(encoded).decode('utf-8')`. -/
def base32_decode (s : PyStr) : Except PyErr PyStr :=
  match b32decodePy s with
  | .error e => .error e
  | .ok bs => bytesDecodeUtf8 bs

/-- `TextEncoder.hex_encode`: `text.encode('utf-8').hex()`. -/
def hex_encode (s : PyStr) : Except PyErr PyStr := (utf8Encode s).map bytesHex

/-- `TextEncoder.hex_decode`: `bytes.fromhex(encoded).decode('utf-8')`. -/
def hex_decode (s : PyStr) : Except PyErr PyStr :=
  match bytesFromHex s with
  | none => .error .valueError
  | some bs => bytesDecodeUtf8 bs

/-- `TextEncoder.html_encode`: `html.escape(text)` (never fails). -/
def html_encode (s : PyStr) : Except PyErr PyStr := .ok (html_escape s)

/-- `TextEncoder.html_decode`: `html.unescape(encoded)` (never fails). -/
def html_decode (s : PyStr) : Except PyErr PyStr := .ok (htmlUnescape s)

/-- `TextEncoder.rot13_encode`: `codecs.encode(text, 'rot_13')`. -/
def rot13_encode (s : PyStr) : Except PyErr PyStr := .ok (pyRot13 s)

/-- `TextEncoder.rot13_decode`: `codecs.decode(encoded, 'rot_13')` — the
same character map as encoding. -/
def rot13_decode (s : PyStr) : Except PyErr PyStr := .ok (pyRot13 s)

/-- `TextEncoder.ascii85_encode`:
`base64.a85encode(text.encode('utf-8')).decode('ascii')`. -/
def ascii85_encode (s : PyStr) : Except PyErr PyStr :=
  (utf8Encode s).map a85EncodeBytes

/-- `TextEncoder.ascii85_decode`:
`base64.a85decode(encoded).decode('utf-8')`. -/
def ascii85_decode (s : PyStr) : Except PyErr PyStr :=
  match a85decodePy s with
  | .error e => .error e
  | .ok bs => bytesDecodeUtf8 bs

/-- A codec entry of `EncoderDecoder.encodings`: the encode and decode
callables and the description string. -/
structure Codec where
  enc : PyStr → Except PyErr PyStr
  dec : PyStr → Except PyErr PyStr
  description : String

/-- The `EncoderDecoder.encodings` registry, in its insertion order. -/
def encodings : List (String × Codec) :=
  [("base64", ⟨base64_encode, base64_decode, "Base64 encoding (RFC 4648)"⟩),
   ("base32", ⟨base32_encode, base32_decode, "Base32 encoding (RFC 4648)"⟩),
   ("hex", ⟨hex_encode, hex_decode, "Hexadecimal encoding"⟩),
   ("url", ⟨url_encode, url_decode, "URL/Percent encoding (RFC 3986)"⟩),
   ("html", ⟨html_encode, html_decode, "HTML entity encoding"⟩),
   ("rot13", ⟨rot13_encode, rot13_decode, "ROT13 substitution cipher"⟩),
   ("ascii85", ⟨ascii85_encode, ascii85_decode, "ASCII85/Base85 encoding"⟩),
   ("binary", ⟨binary_encode, binary_decode, "Binary representation (base 2)"⟩),
   ("octal", ⟨octal_encode, octal_decode, "Octal representation (base 8)"⟩)]

/-- The nine registered scheme names, in registry order. -/
def schemeNames : List String := encodings.map Prod.fst

namespace EncoderDecoder

/-- `EncoderDecoder.encode`: look the scheme up (case-sensitive exact
match); `ValueError("Unsupported encoding: ...")` when absent, otherwise
delegate to the codec's encode. -/
def encode (text : PyStr) (encoding : String) : Except PyErr PyStr :=
  match encodings.lookup encoding with
  | none => .error .unsupportedEncoding
  | some c => c.enc text

/-- `EncoderDecoder.decode`: same lookup, delegating to the codec's
decode. -/
def decode (text : PyStr) (encoding : String) : Except PyErr PyStr :=
  match encodings.lookup encoding with
  | none => .error .unsupportedEncoding
  | some c => c.dec text

/-- `EncoderDecoder.list_encodings`: the scheme names with their
descriptions, in registry (insertion) order. -/
def list_encodings : List (String × String) :=
  encodings.map fun p => (p.1, p.2.description)

end EncoderDecoder

theorem b64EncodeBytes_ascii :
    ∀ n bs, List.length bs ≤ n → IsBytes bs →
      ∀ c ∈ b64EncodeBytes bs, c < 128 := by
  intro n
  induction n with
  | zero =>
    intro bs hlen _ c hc
    have : bs = [] := List.eq_nil_of_length_eq_zero (Nat.le_zero.mp hlen)
    subst this
    simp [b64EncodeBytes] at hc
  | succ n ih =>
    intro bs hlen hbytes c hc
    match bs with
    | [] => simp [b64EncodeBytes] at hc
    | [b0] =>
      have hb0 : b0 < 256 := hbytes b0 (by simp)
      rw [show b64EncodeBytes [b0] =
        [b64Char (b0 / 4), b64Char (b0 % 4 * 16), 61, 61] from rfl] at hc
      simp at hc
      rcases hc with rfl | rfl | rfl
      · exact b64Char_ascii _ (by omega)
      · exact b64Char_ascii _ (by omega)
      · omega
    | [b0, b1] =>
      have hb0 : b0 < 256 := hbytes b0 (by simp)
      have hb1 : b1 < 256 := hbytes b1 (by simp)
      rw [show b64EncodeBytes [b0, b1] =
        [b64Char (b0 / 4), b64Char (b0 % 4 * 16 + b1 / 16),
         b64Char (b1 % 16 * 4), 61] from rfl] at hc
      simp at hc
      rcases hc with rfl | rfl | rfl | rfl
      · exact b64Char_ascii _ (by omega)
      · exact b64Char_ascii _ (by omega)
      · exact b64Char_ascii _ (by omega)
      · omega
    | b0 :: b1 :: b2 :: rest =>
      have hb0 : b0 < 256 := hbytes b0 (by simp)
      have hb1 : b1 < 256 := hbytes b1 (by simp)
      have hb2 : b2 < 256 := hbytes b2 (by simp)
      rw [show b64EncodeBytes (b0 :: b1 :: b2 :: rest) =
        b64Char (b0 / 4) :: b64Char (b0 % 4 * 16 + b1 / 16) ::
        b64Char (b1 % 16 * 4 + b2 / 64) :: b64Char (b2 % 64) ::
        b64EncodeBytes rest from rfl] at hc
      simp only [List.mem_cons] at hc
      rcases hc with rfl | rfl | rfl | rfl | hc
      · exact b64Char_ascii _ (by omega)
      · exact b64Char_ascii _ (by omega)
      · exact b64Char_ascii _ (by omega)
      · exact b64Char_ascii _ (by omega)
      · exact ih rest (by simp only [List.length_cons] at hlen; omega)
          (fun x hx => hbytes x (by simp [hx])) c hc

/-- `base64.b64decode` inverts `base64.b64encode`. -/
theorem b64decodePy_encodeBytes {bs : List Nat} (h : IsBytes bs) :
    b64decodePy (b64EncodeBytes bs) = .ok bs := by
  unfold b64decodePy
  rw [if_pos (by
    rw [List.all_eq_true]
    intro c hc
    simpa using b64EncodeBytes_ascii bs.length bs le_rfl h c hc)]
  exact a2b64_encodeBytes h

/-- `base64` wrapper round-trip over valid text. -/
theorem base64_decode_encode {s : PyStr} (h : ValidText s) :
    (base64_encode s).bind base64_decode = .ok s := by
  unfold base64_encode
  rw [utf8Encode_eq_ok h]
  show base64_decode (b64EncodeBytes (s.flatMap utf8EncodeChar)) = .ok s
  unfold base64_decode
  rw [b64decodePy_encodeBytes (utf8Encode_isBytes h)]
  show bytesDecodeUtf8 (s.flatMap utf8EncodeChar) = .ok s
  unfold bytesDecodeUtf8
  rw [utf8Decode_flatMap h]

/-- `base32` wrapper round-trip over valid text. -/
theorem base32_decode_encode {s : PyStr} (h : ValidText s) :
    (base32_encode s).bind base32_decode = .ok s := by
  unfold base32_encode
  rw [utf8Encode_eq_ok h]
  show base32_decode (b32EncodeBytes (s.flatMap utf8EncodeChar)) = .ok s
  unfold base32_decode
  rw [b32decodePy_encodeBytes (utf8Encode_isBytes h)]
  show bytesDecodeUtf8 (s.flatMap utf8EncodeChar) = .ok s
  unfold bytesDecodeUtf8
  rw [utf8Decode_flatMap h]

/-- `hex` wrapper round-trip over valid text. -/
theorem hex_decode_encode {s : PyStr} (h : ValidText s) :
    (hex_encode s).bind hex_decode = .ok s := by
  unfold hex_encode
  rw [utf8Encode_eq_ok h]
  show hex_decode (bytesHex (s.flatMap utf8EncodeChar)) = .ok s
  unfold hex_decode
  rw [bytesFromHex_bytesHex (utf8Encode_isBytes h)]
  show bytesDecodeUtf8 (s.flatMap utf8EncodeChar) = .ok s
  unfold bytesDecodeUtf8
  rw [utf8Decode_flatMap h]

/-- `url` wrapper round-trip over valid text. -/
theorem url_decode_encode {s : PyStr} (h : ValidText s) :
    (url_encode s).bind url_decode = .ok s := by
  unfold url_encode
  rw [utf8Encode_eq_ok h]
  show url_decode (quoteBytes (s.flatMap utf8EncodeChar)) = .ok s
  unfold url_decode
  rw [pyUnquote_ascii (quoteBytes_ascii (utf8Encode_isBytes h)),
    percentDecodeAscii_quoteBytes (utf8Encode_isBytes h),
    utf8DecodeReplace_flatMap h]

/-- `html` wrapper round-trip (holds for every string). -/
theorem html_decode_encode (s : PyStr) :
    (html_encode s).bind html_decode = .ok s := by
  show html_decode (html_escape s) = .ok s
  unfold html_decode
  rw [htmlUnescape_escape]

/-- `rot13` wrapper round-trip (holds for every string). -/
theorem rot13_decode_encode (s : PyStr) :
    (rot13_encode s).bind rot13_decode = .ok s := by
  show Except.ok (pyRot13 (pyRot13 s)) = .ok s
  rw [pyRot13_involutive]

/-- `ascii85` wrapper round-trip over valid text. -/
theorem ascii85_decode_encode {s : PyStr} (h : ValidText s) :
    (ascii85_encode s).bind ascii85_decode = .ok s := by
  unfold ascii85_encode
  rw [utf8Encode_eq_ok h]
  show ascii85_decode (a85EncodeBytes (s.flatMap utf8EncodeChar)) = .ok s
  unfold ascii85_decode
  rw [a85decodePy_encodeBytes (utf8Encode_isBytes h)]
  show bytesDecodeUtf8 (s.flatMap utf8EncodeChar) = .ok s
  unfold bytesDecodeUtf8
  rw [utf8Decode_flatMap h]

/-- `binary` wrapper round-trip over valid text. -/
theorem binary_decode_encode_wrap {s : PyStr} (h : ValidText s) :
    (binary_encode s).bind binary_decode = .ok s := by
  unfold binary_encode
  rw [utf8Encode_eq_ok h]
  show binary_decode (spaceJoin ((s.flatMap utf8EncodeChar).map byteBits)) =
    .ok s
  exact binary_decode_encode h

/-- `octal` wrapper round-trip over valid text. -/
theorem octal_decode_encode_wrap {s : PyStr} (h : ValidText s) :
    (octal_encode s).bind octal_decode = .ok s := by
  unfold octal_encode
  rw [utf8Encode_eq_ok h]
  show octal_decode (spaceJoin ((s.flatMap utf8EncodeChar).map byteOct)) =
    .ok s
  exact octal_decode_encode h

/-! ## The claims -/

/-- C1: for every registered scheme name and every text whose code points
are Unicode scalar values (what `str` holds, so `text.encode('utf-8')`
succeeds), decoding the encoding through the dispatcher returns the
original text. -/
theorem claim_C1_roundtrip :
    ∀ name ∈ schemeNames, ∀ s : PyStr, ValidText s →
      (EncoderDecoder.encode s name).bind
        (fun e => EncoderDecoder.decode e name) = .ok s := by
  intro name hname s hs
  have hmem : name = "base64" ∨ name = "base32" ∨ name = "hex" ∨
      name = "url" ∨ name = "html" ∨ name = "rot13" ∨ name = "ascii85" ∨
      name = "binary" ∨ name = "octal" := by
    simpa [schemeNames, encodings] using hname
  rcases hmem with rfl | rfl | rfl | rfl | rfl | rfl | rfl | rfl | rfl
  · exact base64_decode_encode hs
  · exact base32_decode_encode hs
  · exact hex_decode_encode hs
  · exact url_decode_encode hs
  · exact html_decode_encode s
  · exact rot13_decode_encode s
  · exact ascii85_decode_encode hs
  · exact binary_decode_encode_wrap hs
  · exact octal_decode_encode_wrap hs

theorem claim_C1_roundtrip_witness :
    "base64" ∈ schemeNames ∧ ValidText [72, 105] ∧
      (EncoderDecoder.encode [72, 105] "base64").bind
        (fun e => EncoderDecoder.decode e "base64") = .ok [72, 105] :=
  ⟨by decide, by decide,
    claim_C1_roundtrip "base64" (by decide) [72, 105] (by decide)⟩

/-- C2: requesting an unregistered scheme name makes both `encode` and
`decode` fail with the unsupported-encoding `ValueError`, before any codec
runs. -/
theorem claim_C2_unsupported :
    ∀ (s : PyStr) (name : String), name ∉ schemeNames →
      EncoderDecoder.encode s name = .error .unsupportedEncoding ∧
      EncoderDecoder.decode s name = .error .unsupportedEncoding := by
  intro s name hname
  simp only [schemeNames, encodings, List.map_cons, List.map_nil,
    List.mem_cons, List.not_mem_nil, or_false, not_or] at hname
  obtain ⟨h1, h2, h3, h4, h5, h6, h7, h8, h9⟩ := hname
  have hlk : encodings.lookup name = none := by
    simp [encodings, List.lookup, beq_eq_false_iff_ne.mpr h1,
      beq_eq_false_iff_ne.mpr h2, beq_eq_false_iff_ne.mpr h3,
      beq_eq_false_iff_ne.mpr h4, beq_eq_false_iff_ne.mpr h5,
      beq_eq_false_iff_ne.mpr h6, beq_eq_false_iff_ne.mpr h7,
      beq_eq_false_iff_ne.mpr h8, beq_eq_false_iff_ne.mpr h9]
  constructor
  · unfold EncoderDecoder.encode
    rw [hlk]
  · unfold EncoderDecoder.decode
    rw [hlk]

theorem claim_C2_unsupported_witness :
    "made-up-scheme" ∉ schemeNames ∧
      (EncoderDecoder.encode [97, 98, 99] "made-up-scheme" =
          .error .unsupportedEncoding ∧
        EncoderDecoder.decode [97, 98, 99] "made-up-scheme" =
          .error .unsupportedEncoding) :=
  ⟨by decide, claim_C2_unsupported [97, 98, 99] "made-up-scheme" (by decide)⟩

/-- A successful `mapM` provides a value for every member, and that value
is in the result list. -/
theorem mapM_mem {α β : Type} (f : α → Option β) :
    ∀ (l : List α) (vs : List β), l.mapM f = some vs →
      ∀ a ∈ l, ∃ v, f a = some v ∧ v ∈ vs := by
  intro l
  induction l with
  | nil =>
    intro vs _ a ha
    simp at ha
  | cons x xs ih =>
    intro vs hm a ha
    rw [List.mapM_cons] at hm
    cases hfx : f x with
    | none =>
      rw [hfx] at hm
      simp at hm
    | some v =>
      rw [hfx] at hm
      cases hrest : xs.mapM f with
      | none =>
        rw [hrest] at hm
        simp at hm
      | some rest =>
        rw [hrest] at hm
        simp only [Option.pure_def, Option.bind_eq_bind, Option.some_bind,
          Option.some.injEq] at hm
        subst hm
        rcases List.mem_cons.mp ha with rfl | ha'
        · exact ⟨v, hfx, by simp⟩
        · obtain ⟨w, hw, hwm⟩ := ih rest hrest a ha'
          exact ⟨w, hw, by simp [hwm]⟩

theorem pyIntStep_none89 (acc c : Nat) (h : c = 56 ∨ c = 57) :
    pyIntStep 8 acc c = none := by
  rcases h with rfl | rfl <;> rfl

theorem pyIntCore_none89 :
    ∀ (t : PyStr) (acc : Nat), (∃ c ∈ t, c = 56 ∨ c = 57) →
      pyIntCore 8 t acc = none := by
  suffices H : ∀ (n : Nat) (t : PyStr), t.length ≤ n → ∀ acc : Nat,
      (∃ c ∈ t, c = 56 ∨ c = 57) → pyIntCore 8 t acc = none from
    fun t acc h => H t.length t le_rfl acc h
  intro n
  induction n with
  | zero =>
    intro t hlen acc h
    have : t = [] := List.eq_nil_of_length_eq_zero (Nat.le_zero.mp hlen)
    subst this
    simp at h
  | succ n ih =>
    intro t hlen acc h
    obtain ⟨d, hd, h89⟩ := h
    match t with
    | [] => simp at hd
    | c :: rest =>
      by_cases hc95 : c = 95
      · subst hc95
        have hdrest : d ∈ rest := by
          rcases List.mem_cons.mp hd with rfl | h'
          · rcases h89 with h89 | h89 <;> omega
          · exact h'
        match rest with
        | [] => simp at hdrest
        | c2 :: rest' =>
          show (match pyIntStep 8 acc c2 with
            | some acc' => pyIntCore 8 rest' acc'
            | none => none) = none
          rcases List.mem_cons.mp hdrest with rfl | hdrest'
          · rw [pyIntStep_none89 acc d h89]
          · cases hstep : pyIntStep 8 acc c2 with
            | none => rfl
            | some acc' =>
              show pyIntCore 8 rest' acc' = none
              exact ih rest'
                (by simp only [List.length_cons] at hlen; omega) acc'
                ⟨d, hdrest', h89⟩
      · rw [pyIntCore.eq_def]
        simp only [if_neg hc95]
        rcases List.mem_cons.mp hd with rfl | hdrest
        · rw [pyIntStep_none89 acc d h89]
        · cases hstep : pyIntStep 8 acc c with
          | none => rfl
          | some acc' =>
            show pyIntCore 8 rest acc' = none
            exact ih rest (by simp only [List.length_cons] at hlen; omega)
              acc' ⟨d, hdrest, h89⟩

theorem pyIntDigits_none89 (t : PyStr) (h : ∃ c ∈ t, c = 56 ∨ c = 57) :
    pyIntDigits 8 t = none := by
  obtain ⟨d, hd, h89⟩ := h
  match t with
  | [] => simp at hd
  | c :: rest =>
    rcases List.mem_cons.mp hd with rfl | hdrest
    · rw [pyIntDigits, pyIntStep_none89 0 d h89]
    · rw [pyIntDigits]
      cases hstep : pyIntStep 8 0 c with
      | none => rfl
      | some acc => exact pyIntCore_none89 rest acc ⟨d, hdrest, h89⟩

theorem pyIntBody_none89 (t : PyStr) (h : ∃ c ∈ t, c = 56 ∨ c = 57) :
    pyIntBody 8 t = none := by
  match t with
  | [] => exact pyIntDigits_none89 [] h
  | [c] => exact pyIntDigits_none89 [c] h
  | [c0, cp] =>
    obtain ⟨d, hd, h89⟩ := h
    show (if c0 = 48 ∧ ((8 = 2 ∧ (cp = 98 ∨ cp = 66)) ∨
        (8 = 8 ∧ (cp = 111 ∨ cp = 79))) then
      none else pyIntDigits 8 [c0, cp]) = none
    by_cases hcond : c0 = 48 ∧ ((8 = 2 ∧ (cp = 98 ∨ cp = 66)) ∨
        (8 = 8 ∧ (cp = 111 ∨ cp = 79)))
    · rw [if_pos hcond]
    · rw [if_neg hcond]
      exact pyIntDigits_none89 [c0, cp] ⟨d, hd, h89⟩
  | c0 :: cp :: c :: rest' =>
    obtain ⟨d, hd, h89⟩ := h
    show (if c0 = 48 ∧ ((8 = 2 ∧ (cp = 98 ∨ cp = 66)) ∨
        (8 = 8 ∧ (cp = 111 ∨ cp = 79))) then
      (if c = 95 then pyIntDigits 8 rest' else pyIntDigits 8 (c :: rest'))
    else pyIntDigits 8 (c0 :: cp :: c :: rest')) = none
    by_cases hcond : c0 = 48 ∧ ((8 = 2 ∧ (cp = 98 ∨ cp = 66)) ∨
        (8 = 8 ∧ (cp = 111 ∨ cp = 79)))
    · rw [if_pos hcond]
      have hdrest : d ∈ c :: rest' := by
        rcases List.mem_cons.mp hd with rfl | h'
        · rcases h89 with h89 | h89 <;> omega
        · rcases List.mem_cons.mp h' with rfl | h''
          · rcases hcond.2 with ⟨hb, _⟩ | ⟨_, hp⟩
            · omega
            · rcases hp with rfl | rfl <;> rcases h89 with h89 | h89 <;> omega
          · exact h''
      by_cases hc95 : c = 95
      · rw [if_pos hc95]
        have : d ∈ rest' := by
          rcases List.mem_cons.mp hdrest with rfl | h'
          · subst hc95
            rcases h89 with h89 | h89 <;> omega
          · exact h'
        exact pyIntDigits_none89 rest' ⟨d, this, h89⟩
      · rw [if_neg hc95]
        exact pyIntDigits_none89 (c :: rest') ⟨d, hdrest, h89⟩
    · rw [if_neg hcond]
      exact pyIntDigits_none89 (c0 :: cp :: c :: rest') ⟨d, hd, h89⟩

/-- A token containing a decimal digit `8` or `9` is rejected by
`int(token, 8)`. -/
theorem pyInt_none89 (t : PyStr) (h : ∃ c ∈ t, c = 56 ∨ c = 57) :
    pyInt 8 t = none := by
  obtain ⟨d, hd, h89⟩ := h
  match t with
  | [] => simp at hd
  | c :: rest =>
    rw [pyInt]
    by_cases hc43 : c = 43
    · rw [if_pos hc43]
      have hdrest : d ∈ rest := by
        rcases List.mem_cons.mp hd with rfl | h'
        · rcases h89 with h89 | h89 <;> omega
        · exact h'
      rw [pyIntBody_none89 rest ⟨d, hdrest, h89⟩]
      rfl
    · rw [if_neg hc43]
      by_cases hc45 : c = 45
      · rw [if_pos hc45]
        have hdrest : d ∈ rest := by
          rcases List.mem_cons.mp hd with rfl | h'
          · rcases h89 with h89 | h89 <;> omega
          · exact h'
        rw [pyIntBody_none89 rest ⟨d, hdrest, h89⟩]
        rfl
      · rw [if_neg hc45]
        rw [pyIntBody_none89 (c :: rest) ⟨d, hd, h89⟩]
        rfl

instance : DecidablePred WsToken := fun t =>
  decidable_of_iff (t ≠ [] ∧ ∀ c ∈ t, isPySpace c = false) Iff.rfl

/-- Characters with a Base64 value are ASCII. -/
theorem b64Val_isSome_ascii (c : Nat) (h : (b64Val c).isSome) : c < 128 := by
  unfold b64Val at h
  split_ifs at h <;> first | omega | simp at h

/-- C3 (counterexample to the claim as stated): the `url` decoder does not
fail on the malformed percent escape `"%zz"`; `urllib.parse.unquote`
passes it through unchanged, so `decode("%zz", "url")` returns `"%zz"`. -/
theorem claim_C3_alphabet_counterexample :
    EncoderDecoder.decode [37, 122, 122] "url" = .ok [37, 122, 122] := rfl

/-- C3 (amended): out-of-alphabet input is not uniformly a `DecodeError`.
The `url` and `html` decoders never fail: `url` returns
`unquote(encoded)` and `html` returns `unescape(encoded)`, passing
unknown escapes and entities through. `base64` silently discards
non-alphabet characters (`"SGVs bG8="` decodes to `"Hello"`). The
decoders that do reject out-of-alphabet characters: `hex` on `"zz"`
(`ValueError`), `base32` on `"1AAAAAAA"` (`binascii.Error`), `ascii85`
on `"v"` (`ValueError`), `binary` on `"2"` and `octal` on `"8"`
(`ValueError`). -/
theorem claim_C3_alphabet_amended :
    (∀ s : PyStr, EncoderDecoder.decode s "url" = .ok (pyUnquote s)) ∧
    (∀ s : PyStr, EncoderDecoder.decode s "html" = .ok (htmlUnescape s)) ∧
    EncoderDecoder.decode [83, 71, 86, 115, 32, 98, 71, 56, 61] "base64" =
      .ok [72, 101, 108, 108, 111] ∧
    EncoderDecoder.decode [122, 122] "hex" = .error .valueError ∧
    EncoderDecoder.decode [49, 65, 65, 65, 65, 65, 65, 65] "base32" =
      .error .binasciiError ∧
    EncoderDecoder.decode [118] "ascii85" = .error .valueError ∧
    EncoderDecoder.decode [50] "binary" = .error .valueError ∧
    EncoderDecoder.decode [56] "octal" = .error .valueError := by
  refine ⟨fun s => rfl, fun s => rfl, rfl, rfl, rfl, rfl, ?_, ?_⟩
  · show binary_decode [50] = .error .valueError
    unfold binary_decode
    rw [show pyStrip [50] = [50] from rfl,
      show ([50] : PyStr) = spaceJoin [[50]] from rfl,
      pySplitWs_spaceJoin (by decide)]
    rfl
  · show octal_decode [56] = .error .valueError
    unfold octal_decode
    rw [show pyStrip [56] = [56] from rfl,
      show ([56] : PyStr) = spaceJoin [[56]] from rfl,
      pySplitWs_spaceJoin (by decide)]
    rfl

/-- C4 (counterexample to the claim as stated): `decode("1111111
00000000", "binary")` succeeds: `int("1111111", 2)` accepts the 7-bit
token and yields byte 127, so the result is `"\x7f\x00"`. -/
theorem claim_C4_binary_counterexample :
    EncoderDecoder.decode
      [49, 49, 49, 49, 49, 49, 49, 32, 48, 48, 48, 48, 48, 48, 48, 48]
      "binary" = .ok [127, 0] := by
  show binary_decode _ = _
  unfold binary_decode
  rw [show pyStrip [49, 49, 49, 49, 49, 49, 49, 32,
        48, 48, 48, 48, 48, 48, 48, 48] =
      [49, 49, 49, 49, 49, 49, 49, 32, 48, 48, 48, 48, 48, 48, 48, 48]
      from rfl,
    show ([49, 49, 49, 49, 49, 49, 49, 32,
        48, 48, 48, 48, 48, 48, 48, 48] : PyStr) =
      spaceJoin [[49, 49, 49, 49, 49, 49, 49],
        [48, 48, 48, 48, 48, 48, 48, 48]] from rfl,
    pySplitWs_spaceJoin (by decide)]
  rfl

/-- C4 (amended): `binary` decode does not require 8-character `0`/`1`
tokens: each whitespace-separated token goes through `int(token, 2)`
(which also takes signs, `0b` prefixes and underscores) and is accepted
whenever the value lies in 0..255. In particular `"0b1000001"` decodes to
`"A"`; a `ValueError` arises only when a token fails to parse (`"102"`)
or parses out of byte range (`"111111111"` = 511). -/
theorem claim_C4_binary_amended :
    (∀ toks : List PyStr, (∀ t ∈ toks, WsToken t) →
      ∀ vs : List Int, toks.mapM (pyInt 2) = some vs →
        vs.all (fun v => 0 ≤ v && v < 256) = true →
        EncoderDecoder.decode (spaceJoin toks) "binary" =
          bytesDecodeUtf8 (vs.map Int.toNat)) ∧
    EncoderDecoder.decode [48, 98, 49, 48, 48, 48, 48, 48, 49] "binary" =
      .ok [65] ∧
    EncoderDecoder.decode [49, 49, 49, 49, 49, 49, 49, 49, 49] "binary" =
      .error .valueError ∧
    EncoderDecoder.decode [49, 48, 50] "binary" = .error .valueError := by
  refine ⟨?_, ?_, ?_, ?_⟩
  · intro toks htoks vs hvs hall
    show binary_decode (spaceJoin toks) = _
    unfold binary_decode
    rw [pySplitWs_pyStrip, pySplitWs_spaceJoin htoks, hvs]
    show (if vs.all (fun v => 0 ≤ v && v < 256) then _ else _) = _
    rw [if_pos hall]
    unfold bytesDecodeUtf8
    cases utf8Decode (vs.map Int.toNat) <;> rfl
  · show binary_decode [48, 98, 49, 48, 48, 48, 48, 48, 49] = .ok [65]
    unfold binary_decode
    rw [show pyStrip [48, 98, 49, 48, 48, 48, 48, 48, 49] =
        [48, 98, 49, 48, 48, 48, 48, 48, 49] from rfl,
      show ([48, 98, 49, 48, 48, 48, 48, 48, 49] : PyStr) =
        spaceJoin [[48, 98, 49, 48, 48, 48, 48, 48, 49]] from rfl,
      pySplitWs_spaceJoin (by decide)]
    rfl
  · show binary_decode [49, 49, 49, 49, 49, 49, 49, 49, 49] =
      .error .valueError
    unfold binary_decode
    rw [show pyStrip [49, 49, 49, 49, 49, 49, 49, 49, 49] =
        [49, 49, 49, 49, 49, 49, 49, 49, 49] from rfl,
      show ([49, 49, 49, 49, 49, 49, 49, 49, 49] : PyStr) =
        spaceJoin [[49, 49, 49, 49, 49, 49, 49, 49, 49]] from rfl,
      pySplitWs_spaceJoin (by decide)]
    rfl
  · show binary_decode [49, 48, 50] = .error .valueError
    unfold binary_decode
    rw [show pyStrip [49, 48, 50] = [49, 48, 50] from rfl,
      show ([49, 48, 50] : PyStr) = spaceJoin [[49, 48, 50]] from rfl,
      pySplitWs_spaceJoin (by decide)]
    rfl

theorem claim_C4_binary_amended_witness :
    (∀ t ∈ ([[49, 48]] : List PyStr), WsToken t) ∧
    ([[49, 48]] : List PyStr).mapM (pyInt 2) = some [2] ∧
    ([2] : List Int).all (fun v => 0 ≤ v && v < 256) = true ∧
    EncoderDecoder.decode (spaceJoin [[49, 48]]) "binary" =
      bytesDecodeUtf8 (([2] : List Int).map Int.toNat) :=
  ⟨by decide, rfl, rfl,
    claim_C4_binary_amended.1 [[49, 48]] (by decide) [2] rfl rfl⟩

/-- C5: when the input consists only of Base64 alphabet characters (no
`=`) and its length is not a multiple of four, `binascii.a2b_base64`
reaches the end of the data mid-quantum and raises, so the dispatcher's
base64 decode fails; `"SGVsbG8"` is such an input. -/
theorem claim_C5_base64_length :
    ∀ s : PyStr, (∀ c ∈ s, c ≠ 61 ∧ (b64Val c).isSome) →
      s.length % 4 ≠ 0 →
      ∃ e, EncoderDecoder.decode s "base64" = .error e := by
  intro s halpha hlen
  obtain ⟨e, he⟩ := a2b64_all_alpha s 0 0 halpha (by omega)
    (by simpa using hlen)
  refine ⟨e, ?_⟩
  show base64_decode s = .error e
  unfold base64_decode
  have hb : b64decodePy s = a2b64 s 0 0 0 := by
    unfold b64decodePy
    rw [if_pos (by
      rw [List.all_eq_true]
      intro c hc
      simpa using b64Val_isSome_ascii c ((halpha c hc).2))]
  rw [hb, he]

theorem claim_C5_base64_length_witness :
    (∀ c ∈ ([83, 71, 86, 115, 98, 71, 56] : PyStr),
      c ≠ 61 ∧ (b64Val c).isSome) ∧
    ([83, 71, 86, 115, 98, 71, 56] : PyStr).length % 4 ≠ 0 ∧
    ∃ e, EncoderDecoder.decode [83, 71, 86, 115, 98, 71, 56] "base64" =
      .error e :=
  ⟨by decide, by decide,
    claim_C5_base64_length [83, 71, 86, 115, 98, 71, 56]
      (by decide) (by decide)⟩

/-- C6: octal decode fails with a `ValueError` whenever some
whitespace-separated token contains the decimal digit `8` or `9` (then
`int(token, 8)` raises), or some token parses to a value outside 0..255
(then the `bytearray` constructor raises); `"777 999"` hits both. -/
theorem claim_C6_octal_error :
    ∀ s : PyStr,
      ((∃ t ∈ pySplitWs (pyStrip s), ∃ c ∈ t, c = 56 ∨ c = 57) ∨
       (∃ t ∈ pySplitWs (pyStrip s), ∃ v : Int,
         pyInt 8 t = some v ∧ ¬(0 ≤ v ∧ v < 256))) →
      EncoderDecoder.decode s "octal" = .error .valueError := by
  intro s h
  show octal_decode s = .error .valueError
  unfold octal_decode
  cases hm : (pySplitWs (pyStrip s)).mapM (pyInt 8) with
  | none => rfl
  | some vals =>
    rcases h with ⟨t, ht, hc⟩ | ⟨t, ht, v, hv, hrange⟩
    · obtain ⟨w, hw, _⟩ := mapM_mem (pyInt 8) _ vals hm t ht
      rw [pyInt_none89 t hc] at hw
      cases hw
    · obtain ⟨w, hw, hwm⟩ := mapM_mem (pyInt 8) _ vals hm t ht
      rw [hv] at hw
      obtain rfl := Option.some.inj hw
      show (if vals.all (fun v => 0 ≤ v && v < 256) then _ else _) = _
      rw [if_neg (by
        intro hallT
        have hv' := List.all_eq_true.mp hallT v hwm
        simp only [Bool.and_eq_true, decide_eq_true_eq] at hv'
        exact hrange hv')]

theorem claim_C6_octal_error_witness :
    ((∃ t ∈ pySplitWs (pyStrip [55, 55, 55, 32, 57, 57, 57]),
        ∃ c ∈ t, c = 56 ∨ c = 57) ∨
      (∃ t ∈ pySplitWs (pyStrip [55, 55, 55, 32, 57, 57, 57]),
        ∃ v : Int, pyInt 8 t = some v ∧ ¬(0 ≤ v ∧ v < 256))) ∧
    EncoderDecoder.decode [55, 55, 55, 32, 57, 57, 57] "octal" =
      .error .valueError := by
  have hsplit : pySplitWs (pyStrip [55, 55, 55, 32, 57, 57, 57]) =
      [[55, 55, 55], [57, 57, 57]] := by
    rw [show pyStrip [55, 55, 55, 32, 57, 57, 57] =
        [55, 55, 55, 32, 57, 57, 57] from rfl,
      show ([55, 55, 55, 32, 57, 57, 57] : PyStr) =
        spaceJoin [[55, 55, 55], [57, 57, 57]] from rfl,
      pySplitWs_spaceJoin (by decide)]
  have hhyp : (∃ t ∈ pySplitWs (pyStrip [55, 55, 55, 32, 57, 57, 57]),
      ∃ c ∈ t, c = 56 ∨ c = 57) ∨
      (∃ t ∈ pySplitWs (pyStrip [55, 55, 55, 32, 57, 57, 57]),
        ∃ v : Int, pyInt 8 t = some v ∧ ¬(0 ≤ v ∧ v < 256)) :=
    Or.inl (by
      rw [hsplit]
      exact ⟨[57, 57, 57], by simp, 57, by simp, Or.inr rfl⟩)
  exact ⟨hhyp, claim_C6_octal_error _ hhyp⟩

/-- C7: the rot13 encode and decode entries are the same character map;
the map shifts uppercase and lowercase Latin letters by 13 within their
case, leaves every other character unchanged, and is an involution; and
`encode("Hello") = "Uryyb"`, `decode("Uryyb") = "Hello"`. -/
theorem claim_C7_rot13 :
    (∀ s : PyStr, EncoderDecoder.encode s "rot13" = .ok (pyRot13 s) ∧
      EncoderDecoder.decode s "rot13" = .ok (pyRot13 s)) ∧
    (∀ s : PyStr, pyRot13 (pyRot13 s) = s) ∧
    (∀ c : Nat, ¬((65 ≤ c ∧ c ≤ 90) ∨ (97 ≤ c ∧ c ≤ 122)) →
      rot13Char c = c) ∧
    (∀ c : Nat, 65 ≤ c ∧ c ≤ 90 → rot13Char c = 65 + (c - 65 + 13) % 26) ∧
    (∀ c : Nat, 97 ≤ c ∧ c ≤ 122 → rot13Char c = 97 + (c - 97 + 13) % 26) ∧
    EncoderDecoder.encode [72, 101, 108, 108, 111] "rot13" =
      .ok [85, 114, 121, 121, 98] ∧
    EncoderDecoder.decode [85, 114, 121, 121, 98] "rot13" =
      .ok [72, 101, 108, 108, 111] := by
  refine ⟨fun s => ⟨rfl, rfl⟩, pyRot13_involutive, ?_, ?_, ?_, rfl, rfl⟩
  · intro c hc
    unfold rot13Char
    rw [if_neg (fun h => hc (Or.inl h)), if_neg (fun h => hc (Or.inr h))]
  · intro c hc
    unfold rot13Char
    rw [if_pos hc]
  · intro c hc
    unfold rot13Char
    rw [if_neg (by omega), if_pos hc]

theorem claim_C7_rot13_witness :
    (¬((65 ≤ 32 ∧ 32 ≤ 90) ∨ (97 ≤ 32 ∧ 32 ≤ 122)) ∧ rot13Char 32 = 32) ∧
    ((65 ≤ 65 ∧ 65 ≤ 90) ∧ rot13Char 65 = 65 + (65 - 65 + 13) % 26) ∧
    ((97 ≤ 122 ∧ 122 ≤ 122) ∧ rot13Char 122 = 97 + (122 - 97 + 13) % 26) :=
  ⟨⟨by decide, claim_C7_rot13.2.2.1 32 (by decide)⟩,
   ⟨by decide, claim_C7_rot13.2.2.2.1 65 (by decide)⟩,
   ⟨by decide, claim_C7_rot13.2.2.2.2.1 122 (by decide)⟩⟩

/-- C8: `list_encodings` returns exactly the nine schemes with their
descriptions, in registry insertion order; as a pure function of the
fixed registry, repeated calls return this same sequence. -/
theorem claim_C8_list_encodings :
    EncoderDecoder.list_encodings =
      [("base64", "Base64 encoding (RFC 4648)"),
       ("base32", "Base32 encoding (RFC 4648)"),
       ("hex", "Hexadecimal encoding"),
       ("url", "URL/Percent encoding (RFC 3986)"),
       ("html", "HTML entity encoding"),
       ("rot13", "ROT13 substitution cipher"),
       ("ascii85", "ASCII85/Base85 encoding"),
       ("binary", "Binary representation (base 2)"),
       ("octal", "Octal representation (base 8)")] ∧
    EncoderDecoder.list_encodings.length = 9 := ⟨rfl, rfl⟩

theorem bytesHex_length (bs : List Nat) :
    (bytesHex bs).length = 2 * bs.length := by
  induction bs with
  | nil => rfl
  | cons b bs ih =>
    simp only [bytesHex, List.flatMap_cons, List.length_append,
      List.length_cons, List.length_nil] at ih ⊢
    omega

theorem hexDigit_range : ∀ v, v < 16 →
    (48 ≤ hexDigit v ∧ hexDigit v ≤ 57) ∨
    (97 ≤ hexDigit v ∧ hexDigit v ≤ 102) := by decide

/-- C9: hex encode maps the text to the lowercase hex digit pairs of its
UTF-8 bytes, concatenated without separators: the output is exactly
`bytesHex` of the bytes, twice as long as the byte string, and made of
`0`-`9`/`a`-`f` only. -/
theorem claim_C9_hex_encode :
    ∀ s : PyStr, ValidText s →
      EncoderDecoder.encode s "hex" =
        .ok (bytesHex (s.flatMap utf8EncodeChar)) ∧
      (bytesHex (s.flatMap utf8EncodeChar)).length =
        2 * (s.flatMap utf8EncodeChar).length ∧
      (∀ c ∈ bytesHex (s.flatMap utf8EncodeChar),
        (48 ≤ c ∧ c ≤ 57) ∨ (97 ≤ c ∧ c ≤ 102)) := by
  intro s hs
  refine ⟨?_, bytesHex_length _, ?_⟩
  · show hex_encode s = _
    unfold hex_encode
    rw [utf8Encode_eq_ok hs]
    rfl
  · intro c hc
    obtain ⟨b, hb, hcb⟩ := List.mem_flatMap.mp hc
    have hb' : b < 256 := utf8Encode_isBytes hs b hb
    rcases List.mem_cons.mp hcb with rfl | hcb'
    · exact hexDigit_range (b / 16) (by omega)
    · rcases List.mem_cons.mp hcb' with rfl | hcb''
      · exact hexDigit_range (b % 16) (by omega)
      · simp at hcb''

theorem claim_C9_hex_encode_witness :
    ValidText [97, 98, 99] ∧
    EncoderDecoder.encode [97, 98, 99] "hex" =
      .ok [54, 49, 54, 50, 54, 51] :=
  ⟨by decide, (claim_C9_hex_encode [97, 98, 99] (by decide)).1⟩

/-- C10: `binary` and `octal` decode see only the whitespace-split token
list (`encoded.strip().split()`): any input decodes identically to its
single-space rejoined token sequence, so leading/trailing whitespace and
arbitrary whitespace runs are tolerated, and an all-whitespace (or empty)
input decodes to the empty string. -/
theorem claim_C10_whitespace :
    (∀ s : PyStr, EncoderDecoder.decode s "binary" =
      EncoderDecoder.decode (spaceJoin (pySplitWs s)) "binary") ∧
    (∀ s : PyStr, EncoderDecoder.decode s "octal" =
      EncoderDecoder.decode (spaceJoin (pySplitWs s)) "octal") ∧
    (∀ s : PyStr, (∀ c ∈ s, isPySpace c = true) →
      EncoderDecoder.decode s "binary" = .ok [] ∧
      EncoderDecoder.decode s "octal" = .ok []) := by
  refine ⟨?_, ?_, ?_⟩
  · intro s
    have key : pySplitWs (pyStrip (spaceJoin (pySplitWs s))) =
        pySplitWs (pyStrip s) := by
      rw [pySplitWs_pyStrip, pySplitWs_pyStrip,
        pySplitWs_spaceJoin (pySplitWs_wellformed s)]
    show binary_decode s = binary_decode (spaceJoin (pySplitWs s))
    unfold binary_decode
    rw [key]
  · intro s
    have key : pySplitWs (pyStrip (spaceJoin (pySplitWs s))) =
        pySplitWs (pyStrip s) := by
      rw [pySplitWs_pyStrip, pySplitWs_pyStrip,
        pySplitWs_spaceJoin (pySplitWs_wellformed s)]
    show octal_decode s = octal_decode (spaceJoin (pySplitWs s))
    unfold octal_decode
    rw [key]
  · intro s hs
    have key : pySplitWs (pyStrip s) = [] := by
      rw [pySplitWs_pyStrip]
      exact pySplitWs_all_space hs
    constructor
    · show binary_decode s = .ok []
      unfold binary_decode
      rw [key]
      rfl
    · show octal_decode s = .ok []
      unfold octal_decode
      rw [key]
      rfl

theorem claim_C10_whitespace_witness :
    (∀ c ∈ ([32, 9, 10] : PyStr), isPySpace c = true) ∧
    EncoderDecoder.decode [32, 9, 10] "binary" = .ok [] ∧
    EncoderDecoder.decode [32, 9, 10] "octal" = .ok [] :=
  ⟨by decide, (claim_C10_whitespace.2.2 [32, 9, 10] (by decide)).1,
   (claim_C10_whitespace.2.2 [32, 9, 10] (by decide)).2⟩

end TextCodec
